import Mathlib

/-!
# Verification of the n8n-schema-generator validation and extraction engines

Shallow embedding of the repository's validation and schema-extraction code:

* `Server` — the HTTP validation engine in `server.ts` (`validateNode`,
  `validateParameters`, `validateFilterValue`, `validateFixedCollection`,
  `validateWorkflow`);
* `CoreV` — the structural workflow validator in `src/core/validator.ts`
  (`validateWorkflowStructure`) together with the native-delegation wrapper
  `validateNodeWithN8n` from `src/core/n8n-native-validator.ts`;
* `Extract` — the schema/validation-rule extractor (`extract.ts` and the
  validation-rules extractor script): `buildValidationRule`,
  `extractPropertyValidationRules`, the required/optional partition of
  `extractSingleNodeValidation`, and `extractResourceOperations`;
* `Fixer` — the experimental workflow fixer `fixSwitchV3RuleConditionsOptions`
  from `src/core/fixer.ts`.

JSON values are modelled by the inductive `Json`; JavaScript semantics that the
sources rely on (truthiness, `typeof x === 'object'`, property lookup,
`Object.entries`, `Array.isArray`, `includes`/`indexOf` over `===`) are
modelled by executable helpers.  Modelling conventions, stated once here:

* property access is total (`jsGet` returns `none` where JavaScript yields
  `undefined`); theorems about inputs on which the real code would throw a
  `TypeError` (property access on `null`) carry hypotheses restricting to
  non-throwing documents;
* `===` is modelled by structural equality on `Json`; this agrees with
  JavaScript on primitives (the only case exercised under the theorems'
  hypotheses, which restrict the compared values to strings);
* numbers are rationals (`Rat`), which is exact for every numeric literal the
  code compares against (`3`, `3.2`, `2`);
* template-literal stringification of non-string values is modelled by
  `renderJson`; only the fixed message prefixes matter to any claim.
-/

/-- A JSON value, as produced by `JSON.parse` on a request body or a schema
artifact.  Object fields are an association list in insertion order, matching
JavaScript object-key enumeration order for the string keys used here. -/
inductive Json where
  | null : Json
  | bool (b : Bool) : Json
  | num (q : Rat) : Json
  | str (s : String) : Json
  | arr (elems : List Json) : Json
  | obj (fields : List (String × Json)) : Json

mutual
/-- Structural equality on JSON values (JavaScript `===` on primitives). -/
def Json.beq : Json → Json → Bool
  | .null, .null => true
  | .bool a, .bool b => a == b
  | .num a, .num b => a == b
  | .str a, .str b => a == b
  | .arr a, .arr b => Json.beqList a b
  | .obj a, .obj b => Json.beqFields a b
  | _, _ => false

/-- Pointwise `beq` on element lists. -/
def Json.beqList : List Json → List Json → Bool
  | [], [] => true
  | a :: as, b :: bs => Json.beq a b && Json.beqList as bs
  | _, _ => false

/-- Pointwise `beq` on field lists. -/
def Json.beqFields : List (String × Json) → List (String × Json) → Bool
  | [], [] => true
  | (ka, va) :: as, (kb, vb) :: bs => ka == kb && Json.beq va vb && Json.beqFields as bs
  | _, _ => false
end

instance : BEq Json := ⟨Json.beq⟩

theorem Json.beq_def (a b : Json) : (a == b) = Json.beq a b := rfl

mutual
theorem Json.eq_of_beq : ∀ {a b : Json}, Json.beq a b = true → a = b
  | .null, .null, _ => rfl
  | .bool _, .bool _, h => by
    simp only [Json.beq, beq_iff_eq] at h; exact congrArg Json.bool h
  | .num _, .num _, h => by
    simp only [Json.beq, beq_iff_eq] at h; exact congrArg Json.num h
  | .str _, .str _, h => by
    simp only [Json.beq, beq_iff_eq] at h; exact congrArg Json.str h
  | .arr _, .arr _, h => congrArg Json.arr (Json.eqList_of_beq (by simpa [Json.beq] using h))
  | .obj _, .obj _, h => congrArg Json.obj (Json.eqFields_of_beq (by simpa [Json.beq] using h))

theorem Json.eqList_of_beq : ∀ {as bs : List Json}, Json.beqList as bs = true → as = bs
  | [], [], _ => rfl
  | a :: as, b :: bs, h => by
    simp only [Json.beqList, Bool.and_eq_true] at h
    exact congrArg₂ List.cons (Json.eq_of_beq h.1) (Json.eqList_of_beq h.2)

theorem Json.eqFields_of_beq :
    ∀ {as bs : List (String × Json)}, Json.beqFields as bs = true → as = bs
  | [], [], _ => rfl
  | (ka, va) :: as, (kb, vb) :: bs, h => by
    simp only [Json.beqFields, Bool.and_eq_true, beq_iff_eq] at h
    have hk : ka = kb := h.1.1
    have hv : va = vb := Json.eq_of_beq h.1.2
    have ht : as = bs := Json.eqFields_of_beq h.2
    rw [hk, hv, ht]
end

mutual
theorem Json.beq_self : ∀ a : Json, Json.beq a a = true
  | .null => rfl
  | .bool b => by simp [Json.beq]
  | .num q => by simp [Json.beq]
  | .str s => by simp [Json.beq]
  | .arr as => by simpa [Json.beq] using Json.beqList_self as
  | .obj fs => by simpa [Json.beq] using Json.beqFields_self fs

theorem Json.beqList_self : ∀ as : List Json, Json.beqList as as = true
  | [] => rfl
  | a :: as => by
    simp only [Json.beqList, Bool.and_eq_true]
    exact ⟨Json.beq_self a, Json.beqList_self as⟩

theorem Json.beqFields_self : ∀ as : List (String × Json), Json.beqFields as as = true
  | [] => rfl
  | (k, v) :: as => by
    simp only [Json.beqFields, Bool.and_eq_true]
    exact ⟨⟨by simp, Json.beq_self v⟩, Json.beqFields_self as⟩
end

instance : LawfulBEq Json where
  eq_of_beq h := Json.eq_of_beq h
  rfl := Json.beq_self _

instance : DecidableEq Json := fun a b =>
  decidable_of_iff (Json.beq a b = true) ⟨Json.eq_of_beq, fun h => h ▸ Json.beq_self a⟩

namespace Json

/-- JavaScript truthiness of a value. -/
def truthy : Json → Bool
  | .null => false
  | .bool b => b
  | .num q => q != 0
  | .str s => s != ""
  | .arr _ => true
  | .obj _ => true

/-- JavaScript `typeof v === 'object'` (true for objects, arrays and `null`). -/
def typeofObject : Json → Bool
  | .obj _ => true
  | .arr _ => true
  | .null => true
  | _ => false

/-- `Array.isArray`. -/
def isArr : Json → Bool
  | .arr _ => true
  | _ => false

/-- Is the value a plain object (non-null, non-array)? -/
def isObj : Json → Bool
  | .obj _ => true
  | _ => false

/-- Property lookup `v[k]`; `none` models JavaScript `undefined`.  (JavaScript
property access on `null`/`undefined` throws instead; theorems over inputs
where that distinction matters carry explicit shape hypotheses.) -/
def jsGet : Json → String → Option Json
  | .obj fs, k => (fs.find? (fun f => f.1 == k)).map (·.2)
  | _, _ => none

/-- `Object.entries`.  On arrays it yields index/value pairs and on strings
index/character pairs, as in JavaScript; on other primitives it is empty. -/
def entries : Json → List (String × Json)
  | .obj fs => fs
  | .arr xs => (xs.enum.map fun p => (toString p.1, p.2))
  | .str s => (s.data.enum.map fun p => (toString p.1, .str (String.mk [p.2])))
  | _ => []

/-- `Object.keys`. -/
def keys (v : Json) : List String := (entries v).map (·.1)

/-- Does an object carry the key (JavaScript `k in o`)? -/
def hasKey : Json → String → Bool
  | .obj fs, k => fs.any (fun f => f.1 == k)
  | _, _ => false

/-- Helper for `setKey` on the field list. -/
def setField : List (String × Json) → String → Json → List (String × Json)
  | [], k, v => [(k, v)]
  | (k', v') :: fs, k, v =>
    if k' == k then (k', v) :: fs else (k', v') :: setField fs k v

/-- Assignment `o[k] = v` on an object: replaces the first binding of `k` in
place, or appends a new binding (JavaScript key-insertion order).  Non-objects
are returned unchanged (the sources only assign into checked objects). -/
def setKey : Json → String → Json → Json
  | .obj fs, k, v => .obj (setField fs k v)
  | j, _, _ => j

/-- Template-literal stringification (the exact JavaScript number formatting is
irrelevant to every claim; string values render as themselves). -/
def renderJson : Json → String
  | .null => "null"
  | .bool b => if b then "true" else "false"
  | .num q => toString q
  | .str s => s
  | .arr _ => ""
  | .obj _ => "[object Object]"

/-- Stringification of a possibly-`undefined` value. -/
def renderOpt : Option Json → String
  | some v => renderJson v
  | none => "undefined"

end Json

/-! ### Structural models of JavaScript string primitives

The embedding avoids the core `String` search functions (whose implementations
recurse on byte positions) in favour of character-list recursion, so that every
definition evaluates inside the kernel. -/

/-- `s.includes(c)` for a single character. -/
def jsIncludes (s : String) (c : Char) : Bool := s.data.contains c

/-- `s.startsWith(p)`. -/
def jsStartsWith (s p : String) : Bool := p.data.isPrefixOf s.data

/-- Replace the first occurrence of `pat` (scanning left to right) by `repl`. -/
def replaceFirstAux (pat repl : List Char) : List Char → List Char
  | [] => []
  | c :: cs =>
    if pat.isPrefixOf (c :: cs) then repl ++ (c :: cs).drop pat.length
    else c :: replaceFirstAux pat repl cs

/-- `s.replace(pat, repl)` for string patterns: JavaScript replaces only the
first occurrence. -/
def jsReplaceOnce (s pat repl : String) : String :=
  String.mk (replaceFirstAux pat.data repl.data s.data)

/-! ## The `server.ts` validation engine -/

namespace Server

/-- One `ValidationError` from `server.ts`.  The `expected`/`received`/`hint`
payloads are dropped from the embedding: no claim references them and they do
not influence control flow. -/
structure VError where
  path : String
  message : String
deriving DecidableEq

/-- `ValidationResult` of `server.ts` (the optional `schema` echo is dropped:
it never influences control flow and no claim references it). -/
structure ValidationResult where
  valid : Bool
  errors : List VError
  warnings : List String
deriving DecidableEq

/-- One entry of `schema.properties` as serialized by `extract.ts`, restricted
to the fields `validateFixedCollection` reads: the property `name` and the
names of its `options` entries. -/
structure NProp where
  name : String
  options : Option (List String)
deriving DecidableEq

/-- One node-schema artifact (`schemas/nodes/<name>.json`), restricted to the
fields `validateNode` reads. `versionFlat` models `[schema.version].flat()`. -/
structure NodeSchema where
  availableVersions : Option (List Rat)
  versionFlat : List Rat
  defaultVersion : Option Rat
  properties : List NProp
deriving DecidableEq

/-- One rule of a validation artifact (`schemas/nodes/validation/<name>.json`),
restricted to the fields `validateParameters` reads. -/
structure VRule where
  field : String
  type : String
  enumValues : Option (List Json)
deriving DecidableEq

/-- A validation artifact: its `rules` list. -/
structure Validation where
  rules : List VRule
deriving DecidableEq

/-- The in-memory schema cache built by `loadSchemas` (two maps keyed by short
node-type name). -/
structure SchemaCache where
  nodes : List (String × NodeSchema)
  validations : List (String × Validation)

/-- `Map.get`. -/
def mapGet {α : Type} (m : List (String × α)) (k : String) : Option α :=
  (m.find? (fun e => e.1 == k)).map (·.2)

/-- The `options` check of `validateFilterValue`
(`!value.options || typeof value.options !== 'object'`). -/
def filterOptionsErrors (value : Json) (path : String) : List VError :=
  match Json.jsGet value "options" with
  | some o => if o.truthy && o.typeofObject then [] else
      [⟨path ++ ".options", "Filter missing required \"options\" object"⟩]
  | none => [⟨path ++ ".options", "Filter missing required \"options\" object"⟩]

/-- The `conditions` check of `validateFilterValue`
(`!Array.isArray(value.conditions)`). -/
def filterConditionsErrors (value : Json) (path : String) : List VError :=
  match Json.jsGet value "conditions" with
  | some c => if c.isArr then [] else
      [⟨path ++ ".conditions", "Filter missing required \"conditions\" array"⟩]
  | none => [⟨path ++ ".conditions", "Filter missing required \"conditions\" array"⟩]

/-- The `combinator` check of `validateFilterValue`. -/
def filterCombinatorErrors (value : Json) (path : String) : List VError :=
  match Json.jsGet value "combinator" with
  | some c =>
    if c.truthy then
      if [Json.str "and", Json.str "or"].contains c then [] else
        [⟨path ++ ".combinator", "Invalid combinator: " ++ c.renderJson⟩]
    else [⟨path ++ ".combinator", "Filter missing required \"combinator\""⟩]
  | none => [⟨path ++ ".combinator", "Filter missing required \"combinator\""⟩]

/-- `validateFilterValue(value, path, errors)` — the structural check of a
`filter`-typed parameter value. -/
def validateFilterValue (value : Json) (path : String) : List VError :=
  if !(value.typeofObject) || value == .null then
    [⟨path, "Filter must be an object"⟩]
  else
    filterOptionsErrors value path
    ++ filterConditionsErrors value path
    ++ filterCombinatorErrors value path

/-- `validateFixedCollection(value, field, schema, errors)`. -/
def validateFixedCollection (value : Json) (field : String) (schema : NodeSchema) :
    List VError :=
  if !(value.typeofObject) || value == .null then []
  else
    match schema.properties.find? (fun p => p.name == field) with
    | none => []
    | some prop =>
      match prop.options with
      | none => []
      | some validOptions =>
        value.keys.filterMap fun key =>
          if validOptions.contains key then none
          else some ⟨"parameters." ++ field ++ "." ++ key,
                     "Invalid fixedCollection option: " ++ key⟩

/-- `validateParameters(params, validation, schema, errors, warnings)`;
returns the accumulated `(errors, warnings)` contributions. -/
def validateParameters (params : Json) (validation : Validation) (schema : NodeSchema) :
    List VError × List String :=
  let knownFields := validation.rules.map (·.field)
  let warns := params.keys.filterMap fun key =>
    if knownFields.contains key then none else some ("Unknown parameter: " ++ key)
  let errs := validation.rules.flatMap fun rule =>
    let value := Json.jsGet params rule.field
    (match rule.enumValues, value with
     | some evs, some v =>
       if evs.contains v then [] else
         [⟨"parameters." ++ rule.field, "Invalid value for " ++ rule.field⟩]
     | _, _ => [])
    ++ (match value with
     | some v => if rule.type == "filter" then
         validateFilterValue v ("parameters." ++ rule.field) else []
     | none => [])
    ++ (match value with
     | some v => if rule.type == "fixedCollection" then
         validateFixedCollection v rule.field schema else []
     | none => [])
  (errs, warns)

/-- `validateNode(nodeConfig)`.  A non-string truthy `type` would make the
source throw at `.replace`; it is modelled as the empty string, and theorems
whose truth could depend on such nodes carry a string-or-falsy `type`
hypothesis. -/
def validateNode (cache : SchemaCache) (nodeConfig : Json) : ValidationResult :=
  let nodeType : String := match Json.jsGet nodeConfig "type" with
    | some (.str s) => s
    | _ => ""
  let shortType :=
    jsReplaceOnce (jsReplaceOnce nodeType "n8n-nodes-base." "") "@n8n/n8n-nodes-langchain." ""
  match mapGet cache.nodes shortType with
  | none =>
    { valid := false
      errors := [⟨"type", "Unknown node type: " ++ nodeType⟩]
      warnings := [] }
  | some schema =>
    let requiredErrs : List VError :=
      (["type", "typeVersion", "position", "parameters"].filterMap fun field =>
        match Json.jsGet nodeConfig field with
        | none => some ⟨field, "Missing required field: " ++ field⟩
        | some _ => none)
    let tvErrs : List VError :=
      match Json.jsGet nodeConfig "typeVersion" with
      | none => []
      | some tv =>
        let validVersions := schema.availableVersions.getD schema.versionFlat
        let isMember := match tv with
          | .num q => validVersions.contains q
          | _ => false
        if isMember then [] else
          [⟨"typeVersion", "Invalid typeVersion: " ++ tv.renderJson⟩]
    let posErrs : List VError :=
      match Json.jsGet nodeConfig "position" with
      | none => []
      | some p =>
        match p with
        | .arr xs => if xs.length == 2 then [] else
            [⟨"position", "Position must be [x, y] array"⟩]
        | _ => [⟨"position", "Position must be [x, y] array"⟩]
    let paramResult : List VError × List String :=
      match Json.jsGet nodeConfig "parameters", mapGet cache.validations shortType with
      | some params, some validation =>
        if params.truthy then validateParameters params validation schema else ([], [])
      | _, _ => ([], [])
    let errors := requiredErrs ++ tvErrs ++ posErrs ++ paramResult.1
    { valid := errors.isEmpty
      errors := errors
      warnings := paramResult.2 }

/-- `Array.prototype.indexOf` — index of the first `===`-equal element.  (On a
missing element JavaScript returns `-1` and this model returns `l.length`;
both differ from every index of an actual occurrence, which is the only way
the result is used.) -/
def jsIndexOf : List Json → Json → Nat
  | [], _ => 0
  | x :: xs, v => if x == v then 0 else jsIndexOf xs v + 1

/-- `names.filter((n, i) => names.indexOf(n) !== i)` — every occurrence of a
value after its first occurrence. -/
def dupsOf (names : List Json) : List Json :=
  (names.enum.filter fun p => jsIndexOf names p.2 != p.1).map (·.2)

/-- `[...new Set(l)]` — first-occurrence deduplication, by the `seen`
accumulator. -/
def jsSetAux : List Json → List Json → List Json
  | _, [] => []
  | seen, x :: xs =>
    if seen.contains x then jsSetAux seen xs else x :: jsSetAux (x :: seen) xs

/-- `[...new Set(l)]`. -/
def jsSetList (l : List Json) : List Json := jsSetAux [] l

/-- The connection-integrity sweep of `validateWorkflow` (its
`if (workflow.connections)` block). -/
def connectionErrors (nodeNames : List Json) (conns : Json) : List VError :=
  (Json.entries conns).flatMap fun e =>
    let sourceName := e.1
    let outputs := e.2
    (if nodeNames.contains (Json.str sourceName) then [] else
      [⟨"connections." ++ sourceName,
        "Connection references non-existent node: " ++ sourceName⟩])
    ++ (if outputs.truthy && outputs.typeofObject then
        (Json.entries outputs).flatMap fun oe =>
          let outputType := oe.1
          match oe.2 with
          | .arr outputConnections =>
            outputConnections.flatMap fun conns2 =>
              match conns2 with
              | .arr cs =>
                cs.flatMap fun conn =>
                  match Json.jsGet conn "node" with
                  | some nv =>
                    if nv.truthy && !(nodeNames.contains nv) then
                      [⟨"connections." ++ sourceName ++ "." ++ outputType,
                        "Connection targets non-existent node: " ++ nv.renderJson⟩]
                    else []
                  | none => []
              | _ => []
          | _ => []
        else [])

/-- The node-`name` collection `workflow.nodes.map(n => n.name).filter(Boolean)`. -/
def namesOf (ns : List Json) : List Json :=
  ns.filterMap fun n =>
    match Json.jsGet n "name" with
    | some v => if v.truthy then some v else none
    | none => none

/-- The two leading structural checks of `validateWorkflow` (`nodes` present
and an array; `connections` present and of object type). -/
def structuralErrors (workflow : Json) : List VError :=
  (match Json.jsGet workflow "nodes" with
   | some (.arr _) => []
   | _ => [⟨"nodes", "Workflow must have a \"nodes\" array"⟩])
  ++ (match Json.jsGet workflow "connections" with
   | some v => if v.truthy && v.typeofObject then [] else
       [⟨"connections", "Workflow must have a \"connections\" object"⟩]
   | none => [⟨"connections", "Workflow must have a \"connections\" object"⟩])

/-- The per-node sweep of `validateWorkflow`: each node's `validateNode`
errors, re-rooted under `nodes[i]`. -/
def nodeEntryErrors (cache : SchemaCache) (ns : List Json) : List VError :=
  ns.enum.flatMap fun p =>
    ((validateNode cache p.2).errors.map fun err =>
      ⟨"nodes[" ++ toString p.1 ++ "]." ++ err.path, err.message⟩)

/-- The per-node warnings of `validateWorkflow`, re-rooted under `nodes[i]`. -/
def nodeEntryWarnings (cache : SchemaCache) (ns : List Json) : List String :=
  ns.enum.flatMap fun p =>
    ((validateNode cache p.2).warnings.map fun w =>
      "nodes[" ++ toString p.1 ++ "]: " ++ w)

/-- The duplicate-name check of `validateWorkflow`. -/
def duplicateNameErrors (ns : List Json) : List VError :=
  let duplicates := dupsOf (namesOf ns)
  if duplicates.isEmpty then [] else
    [⟨"nodes",
      "Duplicate node names: " ++
        String.intercalate ", " ((jsSetList duplicates).map Json.renderJson)⟩]

/-- The guarded connection sweep of `validateWorkflow`
(`if (workflow.connections) { ... }`). -/
def workflowConnErrors (workflow : Json) (names : List Json) : List VError :=
  match Json.jsGet workflow "connections" with
  | some c => if c.truthy then connectionErrors names c else []
  | none => []

/-- `validateWorkflow(workflow)`. -/
def validateWorkflow (cache : SchemaCache) (workflow : Json) : ValidationResult :=
  match Json.jsGet workflow "nodes" with
  | some (.arr ns) =>
    let errors := structuralErrors workflow ++ nodeEntryErrors cache ns
      ++ duplicateNameErrors ns ++ workflowConnErrors workflow (namesOf ns)
    { valid := errors.isEmpty, errors := errors,
      warnings := nodeEntryWarnings cache ns }
  | _ =>
    { valid := (structuralErrors workflow).isEmpty,
      errors := structuralErrors workflow, warnings := [] }

end Server

namespace Server

/-! ### Properties of `jsIndexOf`, `dupsOf` and `jsSetList` -/

theorem jsIndexOf_getElem? : ∀ (l : List Json) (v : Json), v ∈ l →
    l[jsIndexOf l v]? = some v
  | x :: xs, v, hv => by
    by_cases hx : (x == v) = true
    · have hxv : x = v := eq_of_beq hx
      simp [jsIndexOf, hx, hxv]
    · have hvxs : v ∈ xs := by
        rcases List.mem_cons.mp hv with h | h
        · exact absurd (h ▸ beq_self_eq_true v) hx
        · exact h
      simpa [jsIndexOf, hx] using jsIndexOf_getElem? xs v hvxs

theorem jsIndexOf_le : ∀ (l : List Json) (v : Json) (i : Nat),
    l[i]? = some v → jsIndexOf l v ≤ i
  | [], _, i, h => by simp at h
  | x :: xs, v, 0, h => by
    have hxv : x = v := by simpa using h
    simp [jsIndexOf, hxv]
  | x :: xs, v, i + 1, h => by
    by_cases hx : (x == v) = true
    · simp [jsIndexOf, hx]
    · have ih := jsIndexOf_le xs v i (by simpa using h)
      have hrw : jsIndexOf (x :: xs) v = jsIndexOf xs v + 1 := by simp [jsIndexOf, hx]
      omega

theorem one_le_count_of_mem (l : List Json) (v : Json) (h : v ∈ l) : 1 ≤ l.count v := by
  rcases Nat.eq_zero_or_pos (l.count v) with h0 | h1
  · exact absurd h (List.count_eq_zero.mp h0)
  · exact h1

theorem two_le_count_of_pair : ∀ (l : List Json) (v : Json) (i j : Nat), i < j →
    l[i]? = some v → l[j]? = some v → 2 ≤ l.count v
  | x :: xs, v, 0, j + 1, _, hi, hj => by
    have hxv : x = v := by simpa using hi
    have hvxs : v ∈ xs := List.getElem?_mem (by simpa using hj)
    have h1 := one_le_count_of_mem xs v hvxs
    rw [List.count_cons, if_pos (hxv ▸ beq_self_eq_true x)]
    omega
  | x :: xs, v, i + 1, j + 1, hij, hi, hj => by
    have ih := two_le_count_of_pair xs v i j (by omega) (by simpa using hi) (by simpa using hj)
    rw [List.count_cons]
    split <;> omega

theorem exists_pair_of_two_le_count : ∀ (l : List Json) (v : Json), 2 ≤ l.count v →
    ∃ i j : Nat, i < j ∧ l[i]? = some v ∧ l[j]? = some v
  | [], v, h => by simp at h
  | x :: xs, v, h => by
    rw [List.count_cons] at h
    by_cases hx : (x == v) = true
    · have hxv : x = v := eq_of_beq hx
      rw [if_pos hx] at h
      have h1 : 1 ≤ xs.count v := by omega
      have hvxs : v ∈ xs := by
        by_contra hc
        rw [List.count_eq_zero.mpr hc] at h1
        omega
      rcases List.mem_iff_getElem?.mp hvxs with ⟨j, hj⟩
      refine ⟨0, j + 1, by omega, ?_, by simpa using hj⟩
      simpa using hxv
    · rw [if_neg hx] at h
      rcases exists_pair_of_two_le_count xs v (by omega) with ⟨i, j, hij, hi, hj⟩
      exact ⟨i + 1, j + 1, by omega, by simpa using hi, by simpa using hj⟩

theorem mem_dupsOf_iff (l : List Json) (v : Json) : v ∈ dupsOf l ↔ 2 ≤ l.count v := by
  unfold dupsOf
  rw [List.mem_map]
  constructor
  · rintro ⟨⟨i, w⟩, hmem, rfl⟩
    rw [List.mem_filter] at hmem
    obtain ⟨henum, hidx⟩ := hmem
    have hget : l[i]? = some w := List.mem_enum_iff_getElem?.mp henum
    have hne : jsIndexOf l w ≠ i := by simpa using hidx
    have hw : w ∈ l := List.getElem?_mem hget
    have hfst : l[jsIndexOf l w]? = some w := jsIndexOf_getElem? l w hw
    have hle : jsIndexOf l w ≤ i := jsIndexOf_le l w i hget
    exact two_le_count_of_pair l w (jsIndexOf l w) i (by omega) hfst hget
  · intro h
    rcases exists_pair_of_two_le_count l v h with ⟨i, j, hij, hi, hj⟩
    have hle : jsIndexOf l v ≤ i := jsIndexOf_le l v i hi
    refine ⟨(j, v), ?_, rfl⟩
    rw [List.mem_filter]
    refine ⟨List.mem_enum_iff_getElem?.mpr (by simpa using hj), ?_⟩
    have hne : jsIndexOf l v ≠ j := by omega
    simpa using hne

theorem count_le_one_iff_nodup : ∀ l : List Json, (∀ v, l.count v ≤ 1) ↔ l.Nodup
  | [] => by simp
  | x :: xs => by
    rw [List.nodup_cons, ← count_le_one_iff_nodup xs]
    constructor
    · intro h
      constructor
      · intro hx
        have h1 := one_le_count_of_mem xs x hx
        have hc := h x
        rw [List.count_cons, if_pos (beq_self_eq_true x)] at hc
        omega
      · intro v
        have hc := h v
        rw [List.count_cons] at hc
        split at hc <;> omega
    · rintro ⟨hx, hcount⟩ v
      rw [List.count_cons]
      by_cases hvx : (x == v) = true
      · have hxv : x = v := eq_of_beq hvx
        rw [if_pos hvx, ← hxv, List.count_eq_zero.mpr hx]
      · rw [if_neg hvx]
        have := hcount v
        omega

theorem dupsOf_eq_nil_iff (l : List Json) : dupsOf l = [] ↔ l.Nodup := by
  rw [List.eq_nil_iff_forall_not_mem, ← count_le_one_iff_nodup l]
  constructor
  · intro h v
    have hv := h v
    rw [mem_dupsOf_iff] at hv
    omega
  · intro h v hmem
    rw [mem_dupsOf_iff] at hmem
    have := h v
    omega

theorem mem_jsSetAux : ∀ (l seen : List Json) (v : Json),
    v ∈ jsSetAux seen l ↔ v ∈ l ∧ v ∉ seen
  | [], seen, v => by simp [jsSetAux]
  | x :: xs, seen, v => by
    by_cases hx : seen.contains x = true
    · have hxseen : x ∈ seen := List.elem_iff.mp hx
      rw [show jsSetAux seen (x :: xs) = jsSetAux seen xs from by
          rw [jsSetAux, if_pos hx], mem_jsSetAux xs seen v]
      constructor
      · rintro ⟨hv, hs⟩
        exact ⟨List.mem_cons_of_mem x hv, hs⟩
      · rintro ⟨hv, hs⟩
        rcases List.mem_cons.mp hv with rfl | hv2
        · exact absurd hxseen hs
        · exact ⟨hv2, hs⟩
    · rw [show jsSetAux seen (x :: xs) = x :: jsSetAux (x :: seen) xs from by
          rw [jsSetAux, if_neg hx]]
      rw [List.mem_cons, mem_jsSetAux xs (x :: seen) v]
      constructor
      · rintro (rfl | ⟨hv, hs⟩)
        · exact ⟨List.mem_cons_self v xs, fun hc => hx (List.elem_iff.mpr hc)⟩
        · refine ⟨List.mem_cons_of_mem x hv, fun hc => ?_⟩
          exact hs (List.mem_cons_of_mem x hc)
      · rintro ⟨hv, hs⟩
        by_cases hvx : v = x
        · exact Or.inl hvx
        · rcases List.mem_cons.mp hv with h | h
          · exact absurd h hvx
          · refine Or.inr ⟨h, fun hc => ?_⟩
            rcases List.mem_cons.mp hc with h2 | h2
            · exact hvx h2
            · exact hs h2

theorem nodup_jsSetAux : ∀ (l seen : List Json), (jsSetAux seen l).Nodup
  | [], seen => by simp [jsSetAux]
  | x :: xs, seen => by
    by_cases hx : seen.contains x = true
    · rw [show jsSetAux seen (x :: xs) = jsSetAux seen xs from by
          rw [jsSetAux, if_pos hx]]
      exact nodup_jsSetAux xs seen
    · rw [show jsSetAux seen (x :: xs) = x :: jsSetAux (x :: seen) xs from by
          rw [jsSetAux, if_neg hx]]
      refine List.nodup_cons.mpr ⟨fun hc => ?_, nodup_jsSetAux xs (x :: seen)⟩
      exact ((mem_jsSetAux xs (x :: seen) x).mp hc).2 (List.mem_cons_self x seen)

theorem mem_jsSetList (l : List Json) (v : Json) : v ∈ jsSetList l ↔ v ∈ l := by
  rw [jsSetList, mem_jsSetAux]
  simp

theorem nodup_jsSetList (l : List Json) : (jsSetList l).Nodup := nodup_jsSetAux l []

end Server

namespace Json

/-- Is the value a string? -/
def isStr : Json → Bool
  | .str _ => true
  | _ => false

end Json

namespace Server

/-- Model-fidelity condition on one node entry: it is a plain object (so
JavaScript property access cannot throw) and its `name`/`type` values, when
truthy, are strings (so `===` agrees with structural equality and `.replace`
cannot throw).  Every §3-conformant `WorkflowDocument` node satisfies it. -/
def nodeFidelityOk (n : Json) : Bool :=
  n.isObj &&
  (match Json.jsGet n "name" with
   | some v => !v.truthy || v.isStr
   | none => true) &&
  (match Json.jsGet n "type" with
   | some v => !v.truthy || v.isStr
   | none => true)

theorem string_ne_of_length_ne {a b : String} (h : a.length ≠ b.length) : a ≠ b :=
  fun e => h (congrArg String.length e)

theorem remap_path_ne_nodes (i p : String) : ("nodes[" ++ i ++ "]." ++ p) ≠ "nodes" := by
  apply string_ne_of_length_ne
  rw [String.length_append, String.length_append, String.length_append]
  have h1 : "nodes[".length = 6 := rfl
  have h2 : "].".length = 2 := rfl
  have h3 : "nodes".length = 5 := rfl
  omega

theorem conn_path_ne_nodes (s : String) : ("connections." ++ s) ≠ "nodes" := by
  apply string_ne_of_length_ne
  rw [String.length_append]
  have h1 : "connections.".length = 12 := rfl
  have h2 : "nodes".length = 5 := rfl
  omega

/-- Every error of the connection sweep has a path below `connections.`. -/
theorem connectionErrors_path (names : List Json) (c : Json) :
    ∀ e ∈ connectionErrors names c, ∃ s, e.path = "connections." ++ s := by
  intro e he
  unfold connectionErrors at he
  rw [List.mem_flatMap] at he
  obtain ⟨⟨src, outputs⟩, _, he⟩ := he
  rw [List.mem_append] at he
  rcases he with he | he
  · split at he
    · simp at he
    · rw [List.mem_singleton] at he
      exact ⟨src, by rw [he]⟩
  · split at he
    case isTrue =>
      rw [List.mem_flatMap] at he
      obtain ⟨⟨otype, oc⟩, _, he⟩ := he
      split at he
      case h_1 slots =>
        rw [List.mem_flatMap] at he
        obtain ⟨slot, _, he⟩ := he
        split at he
        case h_1 cs =>
          rw [List.mem_flatMap] at he
          obtain ⟨conn, _, he⟩ := he
          split at he
          case h_1 nv =>
            split at he
            · rw [List.mem_singleton] at he
              refine ⟨src ++ "." ++ otype, ?_⟩
              rw [he]
              simp [String.append_assoc]
            · simp at he
          case h_2 => simp at he
        case h_2 => simp at he
      case h_2 => simp at he
    case isFalse => simp at he

end Server

namespace Server

theorem filter_path_nodes_eq_nil {l : List VError} (h : ∀ e ∈ l, e.path ≠ "nodes") :
    l.filter (fun e => e.path == "nodes") = [] :=
  List.filter_eq_nil_iff.mpr fun e he => by simpa using h e he

theorem structuralErrors_filter_nodes (wf : Json) (ns : List Json)
    (hnodes : Json.jsGet wf "nodes" = some (.arr ns)) :
    (structuralErrors wf).filter (fun e => e.path == "nodes") = [] := by
  apply filter_path_nodes_eq_nil
  intro e he
  unfold structuralErrors at he
  rw [hnodes] at he
  simp only [List.nil_append] at he
  split at he
  · split at he
    · simp at he
    · rw [List.mem_singleton] at he
      rw [he]
      decide
  · rw [List.mem_singleton] at he
    rw [he]
    decide

theorem nodeEntryErrors_filter_nodes (cache : SchemaCache) (ns : List Json) :
    (nodeEntryErrors cache ns).filter (fun e => e.path == "nodes") = [] := by
  apply filter_path_nodes_eq_nil
  intro e he
  unfold nodeEntryErrors at he
  rw [List.mem_flatMap] at he
  obtain ⟨p, _, he⟩ := he
  rw [List.mem_map] at he
  obtain ⟨err, _, rfl⟩ := he
  exact remap_path_ne_nodes _ _

theorem workflowConnErrors_filter_nodes (wf : Json) (names : List Json) :
    (workflowConnErrors wf names).filter (fun e => e.path == "nodes") = [] := by
  apply filter_path_nodes_eq_nil
  intro e he
  unfold workflowConnErrors at he
  split at he
  · split at he
    · obtain ⟨s, hs⟩ := connectionErrors_path names _ e he
      rw [hs]
      exact conn_path_ne_nodes s
    · simp at he
  · simp at he

theorem duplicateNameErrors_filter_nodes (ns : List Json) :
    (duplicateNameErrors ns).filter (fun e => e.path == "nodes")
      = (if (namesOf ns).Nodup then ([] : List VError) else
          [⟨"nodes", "Duplicate node names: " ++ String.intercalate ", "
              ((jsSetList (dupsOf (namesOf ns))).map Json.renderJson)⟩]) := by
  simp only [duplicateNameErrors]
  by_cases hnd : (namesOf ns).Nodup
  · rw [if_pos hnd]
    have h0 : dupsOf (namesOf ns) = [] := (dupsOf_eq_nil_iff _).mpr hnd
    rw [h0]
    rfl
  · rw [if_neg hnd]
    have hne : ¬ dupsOf (namesOf ns) = [] := fun h => hnd ((dupsOf_eq_nil_iff _).mp h)
    rw [if_neg (by simpa [List.isEmpty_iff] using hne)]
    simp

end Server

/-- C1: in `validateWorkflow`, node-name uniqueness is checked over all present
(truthy) `name` values; duplicated values produce a single
`Duplicate node names` issue (path `nodes`) that lists each offending value
exactly once — never one issue per occurrence.  Stated as: the errors at path
`nodes` are empty when the collected names are duplicate-free, and otherwise
are exactly one issue listing the deduplicated duplicates, where the listed
values are duplicate-free and are precisely the names occurring at least
twice.  The fidelity hypothesis `hfid` restricts to documents on which the
JavaScript source does not throw and `===` agrees with structural equality
(§3 documents: nodes are objects with string names/types). -/
theorem C1_duplicate_node_names
    (cache : Server.SchemaCache) (wf : Json) (ns : List Json)
    (hnodes : Json.jsGet wf "nodes" = some (.arr ns))
    (_hfid : ns.all Server.nodeFidelityOk = true) :
    ((Server.validateWorkflow cache wf).errors.filter (fun e => e.path == "nodes"))
      = (if (Server.namesOf ns).Nodup then ([] : List Server.VError) else
          [⟨"nodes", "Duplicate node names: " ++ String.intercalate ", "
              ((Server.jsSetList (Server.dupsOf (Server.namesOf ns))).map Json.renderJson)⟩])
    ∧ (Server.jsSetList (Server.dupsOf (Server.namesOf ns))).Nodup
    ∧ (∀ v, v ∈ Server.jsSetList (Server.dupsOf (Server.namesOf ns)) ↔
        2 ≤ (Server.namesOf ns).count v) := by
  refine ⟨?_, Server.nodup_jsSetList _, fun v => by
    rw [Server.mem_jsSetList, Server.mem_dupsOf_iff]⟩
  unfold Server.validateWorkflow
  rw [hnodes]
  simp only
  rw [List.filter_append, List.filter_append, List.filter_append,
    Server.structuralErrors_filter_nodes wf ns hnodes,
    Server.nodeEntryErrors_filter_nodes,
    Server.workflowConnErrors_filter_nodes,
    Server.duplicateNameErrors_filter_nodes]
  simp

/-- Witness for C1 at the claim's concrete document: two nodes both named
`A` yield exactly one duplicate-names issue listing `A` once. -/
theorem C1_duplicate_node_names_witness :
    ((Server.validateWorkflow ⟨[], []⟩
        (.obj [("nodes", .arr [.obj [("name", .str "A")], .obj [("name", .str "A")]]),
               ("connections", .obj [])])).errors.filter
      (fun e => e.path == "nodes"))
      = [⟨"nodes", "Duplicate node names: A"⟩] := by
  have h := C1_duplicate_node_names ⟨[], []⟩
    (.obj [("nodes", .arr [.obj [("name", .str "A")], .obj [("name", .str "A")]]),
           ("connections", .obj [])])
    [.obj [("name", .str "A")], .obj [("name", .str "A")]]
    rfl (by decide)
  rw [h.1]
  decide

namespace Server

theorem mem_connectionErrors_src (names : List Json) (conns : Json) {src : String}
    {outputs : Json} (hmem : (src, outputs) ∈ Json.entries conns)
    (hmiss : names.contains (Json.str src) = false) :
    (⟨"connections." ++ src, "Connection references non-existent node: " ++ src⟩ : VError)
      ∈ connectionErrors names conns := by
  unfold connectionErrors
  rw [List.mem_flatMap]
  refine ⟨(src, outputs), hmem, ?_⟩
  rw [List.mem_append]
  left
  rw [if_neg (by rw [hmiss]; exact Bool.false_ne_true)]
  exact List.mem_singleton_self _

theorem mem_connectionErrors_tgt (names : List Json) (conns : Json) {src otype : String}
    {outputs : Json} {slots cs : List Json} {conn nv : Json}
    (hmem : (src, outputs) ∈ Json.entries conns)
    (hot : outputs.truthy = true) (hto : outputs.typeofObject = true)
    (hoe : (otype, Json.arr slots) ∈ Json.entries outputs)
    (hslot : Json.arr cs ∈ slots)
    (hcm : conn ∈ cs)
    (hnode : Json.jsGet conn "node" = some nv)
    (hnvt : nv.truthy = true)
    (hmiss : names.contains nv = false) :
    (⟨"connections." ++ src ++ "." ++ otype,
      "Connection targets non-existent node: " ++ nv.renderJson⟩ : VError)
      ∈ connectionErrors names conns := by
  unfold connectionErrors
  rw [List.mem_flatMap]
  refine ⟨(src, outputs), hmem, ?_⟩
  rw [List.mem_append]
  right
  rw [if_pos (by simp [hot, hto])]
  rw [List.mem_flatMap]
  refine ⟨(otype, Json.arr slots), hoe, ?_⟩
  simp only
  rw [List.mem_flatMap]
  refine ⟨Json.arr cs, hslot, ?_⟩
  simp only
  rw [List.mem_flatMap]
  refine ⟨conn, hcm, ?_⟩
  rw [hnode]
  dsimp only
  rw [if_pos (by rw [hnvt, hmiss]; rfl)]
  exact List.mem_singleton_self _

end Server

/-- C2: `validateWorkflow` validates the connection graph in both directions,
as two distinct issue kinds: a top-level `connections` key naming no node
yields a dangling-source issue (`Connection references non-existent node`)
naming that key, and an edge whose `node` target names no node yields a
dangling-target issue (`Connection targets non-existent node`) naming that
target.  Hypotheses restrict to documents with a `nodes` array and a truthy
`connections` value — the guard under which the source runs this sweep. -/
theorem C2_connection_graph_integrity
    (cache : Server.SchemaCache) (wf : Json) (ns : List Json) (conns : Json)
    (hnodes : Json.jsGet wf "nodes" = some (.arr ns))
    (hconns : Json.jsGet wf "connections" = some conns)
    (hct : conns.truthy = true) :
    (∀ src outputs, (src, outputs) ∈ Json.entries conns →
       (Server.namesOf ns).contains (Json.str src) = false →
       (⟨"connections." ++ src, "Connection references non-existent node: " ++ src⟩ :
         Server.VError) ∈ (Server.validateWorkflow cache wf).errors)
    ∧ (∀ (src otype : String) (outputs : Json) (slots cs : List Json) (conn nv : Json),
       (src, outputs) ∈ Json.entries conns →
       outputs.truthy = true → outputs.typeofObject = true →
       (otype, Json.arr slots) ∈ Json.entries outputs →
       Json.arr cs ∈ slots →
       conn ∈ cs →
       Json.jsGet conn "node" = some nv →
       nv.truthy = true →
       (Server.namesOf ns).contains nv = false →
       (⟨"connections." ++ src ++ "." ++ otype,
         "Connection targets non-existent node: " ++ nv.renderJson⟩ :
         Server.VError) ∈ (Server.validateWorkflow cache wf).errors) := by
  have herr : (Server.validateWorkflow cache wf).errors
      = Server.structuralErrors wf ++ Server.nodeEntryErrors cache ns
        ++ Server.duplicateNameErrors ns
        ++ Server.connectionErrors (Server.namesOf ns) conns := by
    unfold Server.validateWorkflow
    rw [hnodes]
    simp only
    unfold Server.workflowConnErrors
    rw [hconns]
    dsimp only
    rw [if_pos hct]
  constructor
  · intro src outputs hmem hmiss
    rw [herr]
    exact List.mem_append_right _ (Server.mem_connectionErrors_src _ conns hmem hmiss)
  · intro src otype outputs slots cs conn nv hmem hot hto hoe hslot hcm hnode hnvt hmiss
    rw [herr]
    exact List.mem_append_right _
      (Server.mem_connectionErrors_tgt _ conns hmem hot hto hoe hslot hcm hnode hnvt hmiss)

/-- Witness for C2 at the claim's two concrete documents: the connection
`A -> B` with only node `A` yields the dangling-target issue naming `B`, and
with only node `B` yields the dangling-source issue naming `A`. -/
theorem C2_connection_graph_integrity_witness :
    ((⟨"connections.A.main", "Connection targets non-existent node: B"⟩ : Server.VError)
      ∈ (Server.validateWorkflow ⟨[], []⟩
        (.obj [("nodes", .arr [.obj [("name", .str "A")]]),
               ("connections", .obj [("A", .obj [("main", .arr [.arr [.obj
                 [("node", .str "B"), ("type", .str "main"), ("index", .num 0)]]])])])])).errors)
    ∧ ((⟨"connections.A", "Connection references non-existent node: A"⟩ : Server.VError)
      ∈ (Server.validateWorkflow ⟨[], []⟩
        (.obj [("nodes", .arr [.obj [("name", .str "B")]]),
               ("connections", .obj [("A", .obj [("main", .arr [.arr [.obj
                 [("node", .str "B"), ("type", .str "main"), ("index", .num 0)]]])])])])).errors) := by
  constructor
  · exact (C2_connection_graph_integrity ⟨[], []⟩
      (.obj [("nodes", .arr [.obj [("name", .str "A")]]),
             ("connections", .obj [("A", .obj [("main", .arr [.arr [.obj
               [("node", .str "B"), ("type", .str "main"), ("index", .num 0)]]])])])])
      [.obj [("name", .str "A")]]
      (.obj [("A", .obj [("main", .arr [.arr [.obj
        [("node", .str "B"), ("type", .str "main"), ("index", .num 0)]]])])])
      rfl rfl rfl).2 "A" "main"
      (.obj [("main", .arr [.arr [.obj
        [("node", .str "B"), ("type", .str "main"), ("index", .num 0)]]])])
      [.arr [.obj [("node", .str "B"), ("type", .str "main"), ("index", .num 0)]]]
      [.obj [("node", .str "B"), ("type", .str "main"), ("index", .num 0)]]
      (.obj [("node", .str "B"), ("type", .str "main"), ("index", .num 0)])
      (.str "B")
      (by decide) rfl rfl (by decide) (by decide) (by decide) rfl rfl (by decide)
  · exact (C2_connection_graph_integrity ⟨[], []⟩
      (.obj [("nodes", .arr [.obj [("name", .str "B")]]),
             ("connections", .obj [("A", .obj [("main", .arr [.arr [.obj
               [("node", .str "B"), ("type", .str "main"), ("index", .num 0)]]])])])])
      [.obj [("name", .str "B")]]
      (.obj [("A", .obj [("main", .arr [.arr [.obj
        [("node", .str "B"), ("type", .str "main"), ("index", .num 0)]]])])])
      rfl rfl rfl).1 "A"
      (.obj [("main", .arr [.arr [.obj
        [("node", .str "B"), ("type", .str "main"), ("index", .num 0)]]])])
      (by decide) (by decide)

namespace Server

theorem append_suffix_ne_of_length {p a b : String} (h : a.length ≠ b.length) :
    p ++ a ≠ p ++ b := by
  apply string_ne_of_length_ne
  rw [String.length_append, String.length_append]
  omega

/-- A filter on error paths drops every error whose path differs. -/
theorem filter_path_eq_nil {q : String} {l : List VError} (h : ∀ e ∈ l, e.path ≠ q) :
    l.filter (fun e => e.path == q) = [] :=
  List.filter_eq_nil_iff.mpr fun e he => by simpa using h e he

theorem filterConditionsErrors_filter_options (value : Json) (path : String) :
    (filterConditionsErrors value path).filter
      (fun e => e.path == path ++ ".options") = [] := by
  apply filter_path_eq_nil
  intro e he
  unfold filterConditionsErrors at he
  split at he
  · split at he
    · simp at he
    · rw [List.mem_singleton] at he
      rw [he]
      exact append_suffix_ne_of_length (by decide)
  · rw [List.mem_singleton] at he
    rw [he]
    exact append_suffix_ne_of_length (by decide)

theorem filterCombinatorErrors_filter_options (value : Json) (path : String) :
    (filterCombinatorErrors value path).filter
      (fun e => e.path == path ++ ".options") = [] := by
  apply filter_path_eq_nil
  intro e he
  unfold filterCombinatorErrors at he
  split at he
  · split at he
    · split at he
      · simp at he
      · rw [List.mem_singleton] at he
        rw [he]
        exact append_suffix_ne_of_length (by decide)
    · rw [List.mem_singleton] at he
      rw [he]
      exact append_suffix_ne_of_length (by decide)
  · rw [List.mem_singleton] at he
    rw [he]
    exact append_suffix_ne_of_length (by decide)

end Server

/-- C9: in `validateFilterValue`, a filter value that is a plain object with
no `options` member yields exactly one structural issue at path
`<field>.options`, whatever the state of its `conditions` and `combinator`
members: filtering the produced issues to that path leaves exactly the single
missing-options issue. -/
theorem C9_filter_missing_options
    (fs : List (String × Json)) (path : String)
    (hopts : Json.jsGet (.obj fs) "options" = none) :
    ((Server.validateFilterValue (.obj fs) path).filter
        (fun e => e.path == path ++ ".options"))
      = [⟨path ++ ".options", "Filter missing required \"options\" object"⟩] := by
  have hobj : (!(Json.obj fs).typeofObject || (Json.obj fs) == Json.null) = false := rfl
  unfold Server.validateFilterValue
  rw [if_neg (by rw [hobj]; exact Bool.false_ne_true)]
  rw [List.filter_append, List.filter_append,
    Server.filterConditionsErrors_filter_options,
    Server.filterCombinatorErrors_filter_options]
  unfold Server.filterOptionsErrors
  rw [hopts]
  simp

/-- Witness for C9: a filter value carrying only a malformed `conditions`
member yields exactly the one missing-options issue at `parameters.f.options`. -/
theorem C9_filter_missing_options_witness :
    ((Server.validateFilterValue (.obj [("conditions", .str "x")]) "parameters.f").filter
        (fun e => e.path == "parameters.f" ++ ".options"))
      = [⟨"parameters.f" ++ ".options", "Filter missing required \"options\" object"⟩] :=
  C9_filter_missing_options [("conditions", .str "x")] "parameters.f" rfl

/-! ## The `src/core` structural validator (`validator.ts`, `n8n-native-validator.ts`) -/

namespace CoreV

/-- `IssueSeverity`. -/
inductive Severity where
  | error
  | warning
deriving DecidableEq

/-- `ValidationIssue`.  `location` is collapsed to its `path` member and the
`context`/`validAlternatives`/`hint`/source-location payloads are dropped:
none of them influences control flow or any claim.  Source-map enrichment
(`enrichWithSourceInfo`) is modelled for the `rawSource`-absent case, where it
is the identity on these fields. -/
structure VIssue where
  code : String
  severity : Severity
  message : String
  path : Option String := none
deriving DecidableEq

/-- The externally-provided n8n machinery, opaque to this repository (§6):
the node-type registry lookup, `NodeHelpers.getNodeParameters` — which the
source documents as throwing on severe schema issues and therefore wraps in
`try`/`catch`, modelled with `Except` — and
`NodeHelpers.getNodeParametersIssues`, n8n's own non-throwing issue collector
(called outside any `try` by the source), modelled total: it returns `none`
for a `null`/`parameters`-free result and otherwise the per-parameter message
lists (`none` entries model `null` message arrays). -/
structure NativeEnv where
  getNodeType : Option Json → Option Json → Option Json
  getNodeParameters : Json → Option Json → Except String Json
  getNodeParametersIssues : Json → Json → Option (List (String × Option (List String)))

/-- `mapSeverity` from `n8n-native-validator.ts`: every n8n parameter issue is
an error. -/
def mapSeverity (_type : String) : Severity := .error

/-- `validateNodeWithN8n(node)`.  The `Except` result type carries a
JavaScript exception escaping the function; the `try`/`catch` around
`getNodeParameters` is the `match` on its `Except` result. -/
def validateNodeWithN8n (env : NativeEnv) (node : Json) : Except String (List VIssue) :=
  match env.getNodeType (Json.jsGet node "type") (Json.jsGet node "typeVersion") with
  | none =>
    .ok [⟨"UNKNOWN_NODE_TYPE", .warning,
      "Unknown node type: " ++ Json.renderOpt (Json.jsGet node "type"), none⟩]
  | some desc =>
    match env.getNodeParameters desc (Json.jsGet node "parameters") with
    | .error emsg =>
      .ok [⟨"N8N_PARAMETER_VALIDATION_ERROR", .error, emsg, none⟩]
    | .ok _ =>
      match env.getNodeParametersIssues desc node with
      | none => .ok []
      | some parametersIssues =>
        .ok (parametersIssues.flatMap fun pi =>
          match pi.2 with
          | none => []
          | some messages => messages.map fun msg =>
            ⟨"N8N_PARAMETER_ISSUE", mapSeverity "parameters", msg,
              some ("parameters." ++ pi.1)⟩)

/-- The shared `issues`/`errors`/`warnings`/`nodeTypeIssues` accumulators of
`validateWorkflowStructure`. -/
structure Acc where
  issues : List VIssue
  errors : List String
  warnings : List String
  nodeTypeIssues : List String
deriving DecidableEq

/-- Empty accumulator. -/
def Acc.nil : Acc := ⟨[], [], [], []⟩

/-- Sequential accumulation (later pushes append on the right). -/
def Acc.append (a b : Acc) : Acc :=
  ⟨a.issues ++ b.issues, a.errors ++ b.errors,
   a.warnings ++ b.warnings, a.nodeTypeIssues ++ b.nodeTypeIssues⟩

/-- `issues.push(issue); errors.push(issue.message)`. -/
def emitError (code msg : String) (path : Option String) : Acc :=
  ⟨[⟨code, .error, msg, path⟩], [msg], [], []⟩

/-- `issues.push(issue); warnings.push(issue.message)`. -/
def emitWarning (code msg : String) (path : Option String) : Acc :=
  ⟨[⟨code, .warning, msg, path⟩], [], [msg], []⟩

/-- `issues.push(issue); nodeTypeIssues.push(issue.message)` — the channel used
for the two warning-severity node-type-format issues. -/
def emitTypeIssue (code msg : String) (path : Option String) : Acc :=
  ⟨[⟨code, .warning, msg, path⟩], [], [], [msg]⟩

/-- The native-issue re-rooting loop of `validateWorkflowStructure`
(lines delegating to `validateNodeWithN8n`): every issue is enriched with the
full path and dispatched by severity. -/
def nativeLoop (nodePath : String) : List VIssue → Acc → Acc
  | [], acc => acc
  | nativeIssue :: rest, acc =>
    let fullPath := match nativeIssue.path with
      | some rel => if rel != "" then nodePath ++ "." ++ rel else nodePath
      | none => nodePath
    let enriched : VIssue :=
      ⟨nativeIssue.code, nativeIssue.severity, nativeIssue.message, some fullPath⟩
    nativeLoop nodePath rest (Acc.append acc
      (match enriched.severity with
       | .error => ⟨[enriched], [enriched.message], [], []⟩
       | .warning => ⟨[enriched], [], [enriched.message], []⟩))

/-- The native-issue sweep starting from empty accumulators. -/
def nativeAcc (nodePath : String) (l : List VIssue) : Acc :=
  nativeLoop nodePath l Acc.nil

/-- The `type` checks of the per-node loop. -/
def typeAcc (i : Nat) (nodePath nodeName : String) (node : Json) : Acc :=
  match Json.jsGet node "type" with
  | some v =>
    if v.truthy then
      match v with
      | .str s =>
        if !(jsIncludes s '.') then
          emitTypeIssue "INVALID_NODE_TYPE_FORMAT"
            ("Node \"" ++ nodeName ++ "\" has invalid type \"" ++ s ++
              "\" - must include package prefix (e.g., \"n8n-nodes-base.webhook\")")
            (some (nodePath ++ ".type"))
        else if jsStartsWith s "nodes-base." then
          emitTypeIssue "DEPRECATED_NODE_TYPE_PREFIX"
            ("Node \"" ++ nodeName ++ "\" has invalid type \"" ++ s ++
              "\" - should be \"n8n-" ++ s ++ "\"")
            (some (nodePath ++ ".type"))
        else Acc.nil
      | _ =>
        emitError "INVALID_NODE_TYPE_FORMAT"
          ("Node at index " ++ toString i ++ " (" ++ nodeName ++
            ") field 'type' must be a string")
          (some (nodePath ++ ".type"))
    else
      emitError "MISSING_NODE_TYPE"
        ("Node at index " ++ toString i ++ " (" ++ nodeName ++
          ") missing required field: type")
        (some (nodePath ++ ".type"))
  | none =>
    emitError "MISSING_NODE_TYPE"
      ("Node at index " ++ toString i ++ " (" ++ nodeName ++
        ") missing required field: type")
      (some (nodePath ++ ".type"))

/-- The `name` check of the per-node loop. -/
def nameAcc (i : Nat) (nodePath nodeType : String) (node : Json) : Acc :=
  match Json.jsGet node "name" with
  | some v =>
    if v.truthy then Acc.nil else
      emitWarning "MISSING_NODE_NAME"
        ("Node at index " ++ toString i ++ " (type: " ++ nodeType ++
          ") missing 'name' field - will be auto-generated")
        (some (nodePath ++ ".name"))
  | none =>
    emitWarning "MISSING_NODE_NAME"
      ("Node at index " ++ toString i ++ " (type: " ++ nodeType ++
        ") missing 'name' field - will be auto-generated")
      (some (nodePath ++ ".name"))

/-- The `typeVersion` check of the per-node loop. -/
def tvAcc (nodePath nodeName : String) (node : Json) : Acc :=
  match Json.jsGet node "typeVersion" with
  | none =>
    emitError "MISSING_TYPE_VERSION"
      ("Node \"" ++ nodeName ++ "\" missing required field: typeVersion")
      (some (nodePath ++ ".typeVersion"))
  | some (.num _) => Acc.nil
  | some _ =>
    emitError "INVALID_TYPE_VERSION"
      ("Node \"" ++ nodeName ++ "\" field 'typeVersion' must be a number")
      (some (nodePath ++ ".typeVersion"))

/-- The `position` check of the per-node loop. -/
def posAcc (nodePath nodeName : String) (node : Json) : Acc :=
  match Json.jsGet node "position" with
  | some v =>
    if v.truthy then
      (match v with
       | .arr xs =>
         if xs.length == 2 then Acc.nil else
           emitError "INVALID_POSITION"
             ("Node \"" ++ nodeName ++ "\" field 'position' must be an array of [x, y]")
             (some (nodePath ++ ".position"))
       | _ =>
         emitError "INVALID_POSITION"
           ("Node \"" ++ nodeName ++ "\" field 'position' must be an array of [x, y]")
           (some (nodePath ++ ".position")))
    else
      emitError "MISSING_POSITION"
        ("Node \"" ++ nodeName ++ "\" missing required field: position")
        (some (nodePath ++ ".position"))
  | none =>
    emitError "MISSING_POSITION"
      ("Node \"" ++ nodeName ++ "\" missing required field: position")
      (some (nodePath ++ ".position"))

/-- The `parameters` check of the per-node loop, delegating to
`validateNodeWithN8n` when `parameters` is a non-null object. -/
def paramsAcc (env : NativeEnv) (nodePath nodeName : String) (node : Json) :
    Except String Acc :=
  match Json.jsGet node "parameters" with
  | none =>
    .ok (emitError "MISSING_PARAMETERS"
      ("Node \"" ++ nodeName ++ "\" missing required field: parameters")
      (some (nodePath ++ ".parameters")))
  | some p =>
    if !(p.typeofObject) || p == Json.null then
      .ok (emitError "INVALID_PARAMETERS"
        ("Node \"" ++ nodeName ++ "\" field 'parameters' must be an object")
        (some (nodePath ++ ".parameters")))
    else
      match validateNodeWithN8n env node with
      | .error e => .error e
      | .ok nativeIssues => .ok (nativeAcc nodePath nativeIssues)

/-- The per-node body of the `validateWorkflowStructure` loop. -/
def nodeAcc (env : NativeEnv) (i : Nat) (node : Json) : Except String Acc :=
  let nodePath := "nodes[" ++ toString i ++ "]"
  if !(node.truthy && node.typeofObject) then
    .ok (emitError "INVALID_NODE_TYPE"
      ("Node at index " ++ toString i ++ " is not an object") (some nodePath))
  else
    let nodeName : String := match Json.jsGet node "name" with
      | some v => if v.truthy then v.renderJson else "unnamed"
      | none => "unnamed"
    let nodeType : String := match Json.jsGet node "type" with
      | some v => if v.truthy then v.renderJson else "unknown"
      | none => "unknown"
    match paramsAcc env nodePath nodeName node with
    | .error e => .error e
    | .ok pAcc =>
      .ok ((((typeAcc i nodePath nodeName node).append
        (nameAcc i nodePath nodeType node)).append
        (tvAcc nodePath nodeName node)).append
        ((posAcc nodePath nodeName node).append pAcc))

/-- The `for` loop over `wf.nodes`, threading the shared accumulators. -/
def nodesLoop (env : NativeEnv) : List (Nat × Json) → Acc → Except String Acc
  | [], acc => .ok acc
  | p :: ps, acc =>
    match nodeAcc env p.1 p.2 with
    | .error e => .error e
    | .ok a => nodesLoop env ps (acc.append a)

/-- `ValidationResult` of `core/types.js`. -/
structure ValidationResult where
  valid : Bool
  errors : List String
  warnings : List String
  issues : List VIssue
  nodeTypeIssues : Option (List String)
deriving DecidableEq

/-- The structural (`nodes`/`connections` presence and type) checks of
`validateWorkflowStructure`. -/
def structAcc (data : Json) : Acc :=
  (match Json.jsGet data "nodes" with
   | none =>
     emitError "MISSING_PROPERTY" "Missing required property: nodes" (some "nodes")
   | some v =>
     if v.isArr then Acc.nil else
       emitError "INVALID_TYPE" "Property \"nodes\" must be an array" (some "nodes")).append
  (match Json.jsGet data "connections" with
   | none =>
     emitError "MISSING_PROPERTY" "Missing required property: connections" (some "connections")
   | some v =>
     if !(v.typeofObject) || v == Json.null then
       emitError "INVALID_TYPE" "Property \"connections\" must be an object" (some "connections")
     else if v.isArr then
       emitError "INVALID_TYPE" "Property \"connections\" must be an object, not an array"
         (some "connections")
     else Acc.nil)

/-- The full accumulation of `validateWorkflowStructure` past the top-level
type check: structural checks, then the per-node loop when `nodes` is an
array. -/
def collectAcc (env : NativeEnv) (data : Json) : Except String Acc :=
  match Json.jsGet data "nodes" with
  | some (.arr ns) => nodesLoop env ns.enum (structAcc data)
  | _ => .ok (structAcc data)

/-- `validateWorkflowStructure(data, options)` for an absent `rawSource`.
The `Except` result carries a JavaScript exception escaping the function. -/
def validateWorkflowStructure (env : NativeEnv) (data : Json) :
    Except String ValidationResult :=
  if !(data.typeofObject) || data == Json.null then
    .ok { valid := false
          errors := ["Workflow must be a JSON object"]
          warnings := []
          issues := [⟨"INVALID_JSON_TYPE", .error, "Workflow must be a JSON object", none⟩]
          nodeTypeIssues := some [] }
  else
    match collectAcc env data with
    | .error e => .error e
    | .ok acc =>
      .ok { valid := acc.errors.isEmpty
            errors := acc.errors
            warnings := acc.warnings
            issues := acc.issues
            nodeTypeIssues := if acc.nodeTypeIssues.length > 0 then
              some acc.nodeTypeIssues else none }

end CoreV

namespace CoreV

/-! ### Totality and projection invariants of the structural validator -/

theorem validateNodeWithN8n_isOk (env : NativeEnv) (node : Json) :
    ∃ l, validateNodeWithN8n env node = .ok l := by
  unfold validateNodeWithN8n
  split
  · exact ⟨_, rfl⟩
  · split
    · exact ⟨_, rfl⟩
    · split
      · exact ⟨_, rfl⟩
      · exact ⟨_, rfl⟩

/-- Every warning-severity issue produced by `validateNodeWithN8n` is the
unknown-node-type issue. -/
theorem validateNodeWithN8n_warning_code (env : NativeEnv) (node : Json)
    (l : List VIssue) (h : validateNodeWithN8n env node = .ok l) :
    ∀ i ∈ l, i.severity = .warning → i.code = "UNKNOWN_NODE_TYPE" := by
  unfold validateNodeWithN8n at h
  split at h
  · cases h
    intro i hi _
    rw [List.mem_singleton] at hi
    rw [hi]
  · split at h
    · cases h
      intro i hi hw
      rw [List.mem_singleton] at hi
      rw [hi] at hw
      cases hw
    · split at h
      · cases h
        intro i hi
        cases hi
      · cases h
        intro i hi hw
        rw [List.mem_flatMap] at hi
        obtain ⟨pi, _, hi⟩ := hi
        split at hi
        · cases hi
        · rw [List.mem_map] at hi
          obtain ⟨msg, _, rfl⟩ := hi
          cases hw

theorem paramsAcc_isOk (env : NativeEnv) (nodePath nodeName : String) (node : Json) :
    ∃ a, paramsAcc env nodePath nodeName node = .ok a := by
  unfold paramsAcc
  split
  · exact ⟨_, rfl⟩
  · split
    · exact ⟨_, rfl⟩
    · obtain ⟨l, hl⟩ := validateNodeWithN8n_isOk env node
      rw [hl]
      exact ⟨_, rfl⟩

theorem nodeAcc_isOk (env : NativeEnv) (i : Nat) (node : Json) :
    ∃ a, nodeAcc env i node = .ok a := by
  unfold nodeAcc
  split
  · exact ⟨_, rfl⟩
  · dsimp only
    obtain ⟨a, ha⟩ := paramsAcc_isOk env ("nodes[" ++ toString i ++ "]")
      (match Json.jsGet node "name" with
       | some v => if v.truthy then v.renderJson else "unnamed"
       | none => "unnamed") node
    rw [ha]
    exact ⟨_, rfl⟩

theorem nodesLoop_isOk (env : NativeEnv) :
    ∀ (ps : List (Nat × Json)) (acc : Acc), ∃ a, nodesLoop env ps acc = .ok a
  | [], acc => ⟨acc, rfl⟩
  | p :: ps, acc => by
    obtain ⟨a, ha⟩ := nodeAcc_isOk env p.1 p.2
    rw [show nodesLoop env (p :: ps) acc
        = (match nodeAcc env p.1 p.2 with
           | .error e => .error e
           | .ok a => nodesLoop env ps (acc.append a)) from rfl, ha]
    exact nodesLoop_isOk env ps (acc.append a)

theorem collectAcc_isOk (env : NativeEnv) (data : Json) :
    ∃ a, collectAcc env data = .ok a := by
  unfold collectAcc
  split
  case h_1 ns _ => exact nodesLoop_isOk env ns.enum (structAcc data)
  case h_2 => exact ⟨_, rfl⟩

end CoreV

/-- C3: for every input value (non-object top levels, missing or non-array
`nodes`, malformed node entries included) and every behaviour of the external
n8n helpers consistent with their interface (§6; the parameter normalizer may
throw — the issue collector and registry lookup are total),
`validateWorkflowStructure` returns a normal result object and never lets an
exception escape: every validation-time failure is accumulated as a
`ValidationIssue` carrying an explicit severity. -/
theorem C3_validator_never_throws (env : CoreV.NativeEnv) (data : Json) :
    ∃ r, CoreV.validateWorkflowStructure env data = .ok r := by
  unfold CoreV.validateWorkflowStructure
  split
  · exact ⟨_, rfl⟩
  · obtain ⟨a, ha⟩ := CoreV.collectAcc_isOk env data
    rw [ha]
    exact ⟨_, rfl⟩

/-- C4: a node whose type resolves to no known n8n node-type description
short-circuits `validateNodeWithN8n` with exactly one warning-severity
`UNKNOWN_NODE_TYPE` issue and performs no further checks — the result is this
singleton for every behaviour of the remaining external helpers. -/
theorem C4_unknown_type_single_warning (env : CoreV.NativeEnv) (node : Json)
    (h : env.getNodeType (Json.jsGet node "type") (Json.jsGet node "typeVersion") = none) :
    CoreV.validateNodeWithN8n env node
      = .ok [⟨"UNKNOWN_NODE_TYPE", CoreV.Severity.warning,
          "Unknown node type: " ++ Json.renderOpt (Json.jsGet node "type"), none⟩] := by
  unfold CoreV.validateNodeWithN8n
  rw [h]

/-- Witness for C4: a concrete unregistered node type yields exactly the
single unknown-node-type warning, with throwing parameter normalization and
an issue-reporting collector left in the environment. -/
theorem C4_unknown_type_single_warning_witness :
    CoreV.validateNodeWithN8n
      ⟨fun _ _ => none, fun _ _ => .error "boom",
       fun _ _ => some [("color", some ["bad color"])]⟩
      (.obj [("type", .str "custom.mystery"), ("parameters", .obj [])])
      = .ok [⟨"UNKNOWN_NODE_TYPE", CoreV.Severity.warning,
          "Unknown node type: custom.mystery", none⟩] := by
  have h := C4_unknown_type_single_warning
    ⟨fun _ _ => none, fun _ _ => .error "boom",
     fun _ _ => some [("color", some ["bad color"])]⟩
    (.obj [("type", .str "custom.mystery"), ("parameters", .obj [])]) rfl
  simpa using h

namespace CoreV

/-- The projection invariant of the shared accumulators: `errors` carries the
messages of the error-severity issues, `warnings` those of warning-severity
issues except the two node-type-format codes, whose messages go to
`nodeTypeIssues` instead. -/
def Acc.inv (a : Acc) : Prop :=
  a.errors = (a.issues.filter (fun i => i.severity == Severity.error)).map (·.message)
  ∧ a.warnings = (a.issues.filter (fun i => i.severity == Severity.warning
      && i.code != "INVALID_NODE_TYPE_FORMAT"
      && i.code != "DEPRECATED_NODE_TYPE_PREFIX")).map (·.message)
  ∧ a.nodeTypeIssues = (a.issues.filter (fun i => i.severity == Severity.warning
      && (i.code == "INVALID_NODE_TYPE_FORMAT"
        || i.code == "DEPRECATED_NODE_TYPE_PREFIX"))).map (·.message)

theorem inv_nil : Acc.nil.inv := ⟨rfl, rfl, rfl⟩

theorem inv_append {a b : Acc} (ha : a.inv) (hb : b.inv) : (a.append b).inv := by
  obtain ⟨ha1, ha2, ha3⟩ := ha
  obtain ⟨hb1, hb2, hb3⟩ := hb
  refine ⟨?_, ?_, ?_⟩ <;>
    simp [Acc.append, Acc.inv, List.filter_append, ha1, ha2, ha3, hb1, hb2, hb3]

theorem inv_emitError (c m : String) (p : Option String) : (emitError c m p).inv :=
  ⟨rfl, rfl, rfl⟩

theorem inv_emitWarning_missing_name (m : String) (p : Option String) :
    (emitWarning "MISSING_NODE_NAME" m p).inv := ⟨rfl, rfl, rfl⟩

theorem inv_emitTypeIssue_fmt (m : String) (p : Option String) :
    (emitTypeIssue "INVALID_NODE_TYPE_FORMAT" m p).inv := ⟨rfl, rfl, rfl⟩

theorem inv_emitTypeIssue_dep (m : String) (p : Option String) :
    (emitTypeIssue "DEPRECATED_NODE_TYPE_PREFIX" m p).inv := ⟨rfl, rfl, rfl⟩

theorem inv_nativeLoop (nodePath : String) :
    ∀ (l : List VIssue) (acc : Acc),
    (∀ i ∈ l, i.severity = .warning → i.code = "UNKNOWN_NODE_TYPE") → acc.inv →
    (nativeLoop nodePath l acc).inv
  | [], _, _, hacc => hacc
  | nativeIssue :: rest, acc, hl, hacc => by
    rw [nativeLoop]
    dsimp only
    rcases hsev : nativeIssue.severity with _ | _ <;> dsimp only
    · exact inv_nativeLoop nodePath rest _
        (fun i hi => hl i (List.mem_cons_of_mem _ hi))
        (inv_append hacc ⟨rfl, rfl, rfl⟩)
    · have hcode := hl nativeIssue (List.mem_cons_self _ _) hsev
      rw [hcode]
      exact inv_nativeLoop nodePath rest _
        (fun i hi => hl i (List.mem_cons_of_mem _ hi))
        (inv_append hacc ⟨rfl, rfl, rfl⟩)

theorem inv_nativeAcc (nodePath : String) (l : List VIssue)
    (hl : ∀ i ∈ l, i.severity = .warning → i.code = "UNKNOWN_NODE_TYPE") :
    (nativeAcc nodePath l).inv :=
  inv_nativeLoop nodePath l Acc.nil hl inv_nil

theorem typeAcc_inv (i : Nat) (nodePath nodeName : String) (node : Json) :
    (typeAcc i nodePath nodeName node).inv := by
  unfold typeAcc
  split
  · split
    · split
      · split
        · exact inv_emitTypeIssue_fmt _ _
        · split
          · exact inv_emitTypeIssue_dep _ _
          · exact inv_nil
      · exact inv_emitError _ _ _
    · exact inv_emitError _ _ _
  · exact inv_emitError _ _ _

theorem nameAcc_inv (i : Nat) (nodePath nodeType : String) (node : Json) :
    (nameAcc i nodePath nodeType node).inv := by
  unfold nameAcc
  split
  · split
    · exact inv_nil
    · exact inv_emitWarning_missing_name _ _
  · exact inv_emitWarning_missing_name _ _

theorem tvAcc_inv (nodePath nodeName : String) (node : Json) :
    (tvAcc nodePath nodeName node).inv := by
  unfold tvAcc
  split
  · exact inv_emitError _ _ _
  · exact inv_nil
  · exact inv_emitError _ _ _

theorem posAcc_inv (nodePath nodeName : String) (node : Json) :
    (posAcc nodePath nodeName node).inv := by
  unfold posAcc
  split
  · split
    · split
      · split
        · exact inv_nil
        · exact inv_emitError _ _ _
      · exact inv_emitError _ _ _
    · exact inv_emitError _ _ _
  · exact inv_emitError _ _ _

theorem paramsAcc_inv (env : NativeEnv) (nodePath nodeName : String) (node : Json)
    (a : Acc) (h : paramsAcc env nodePath nodeName node = .ok a) : a.inv := by
  unfold paramsAcc at h
  split at h
  · cases h
    exact inv_emitError _ _ _
  · split at h
    · cases h
      exact inv_emitError _ _ _
    · split at h
      · cases h
      case h_2 nativeIssues hni =>
        cases h
        exact inv_nativeAcc nodePath nativeIssues
          (validateNodeWithN8n_warning_code env node _ hni)

theorem nodeAcc_inv (env : NativeEnv) (i : Nat) (node : Json) (a : Acc)
    (h : nodeAcc env i node = .ok a) : a.inv := by
  unfold nodeAcc at h
  split at h
  · cases h
    exact inv_emitError _ _ _
  · dsimp only at h
    split at h
    · cases h
    case h_2 pAcc hpa =>
      cases h
      exact inv_append (inv_append (inv_append (typeAcc_inv _ _ _ _)
        (nameAcc_inv _ _ _ _)) (tvAcc_inv _ _ _))
        (inv_append (posAcc_inv _ _ _) (paramsAcc_inv env _ _ node pAcc hpa))

theorem nodesLoop_inv (env : NativeEnv) :
    ∀ (ps : List (Nat × Json)) (acc : Acc) (a : Acc), acc.inv →
    nodesLoop env ps acc = .ok a → a.inv
  | [], _, _, hacc, h => by cases h; exact hacc
  | p :: ps, acc, a, hacc, h => by
    rw [show nodesLoop env (p :: ps) acc
        = (match nodeAcc env p.1 p.2 with
           | .error e => .error e
           | .ok na => nodesLoop env ps (acc.append na)) from rfl] at h
    split at h
    · cases h
    case h_2 na hna =>
      exact nodesLoop_inv env ps _ a (inv_append hacc (nodeAcc_inv env p.1 p.2 na hna)) h

theorem structAcc_inv (data : Json) : (structAcc data).inv := by
  unfold structAcc
  apply inv_append
  · split
    · exact inv_emitError _ _ _
    · split
      · exact inv_nil
      · exact inv_emitError _ _ _
  · split
    · exact inv_emitError _ _ _
    · split
      · exact inv_emitError _ _ _
      · split
        · exact inv_emitError _ _ _
        · exact inv_nil

theorem collectAcc_inv (env : NativeEnv) (data : Json) (a : Acc)
    (h : collectAcc env data = .ok a) : a.inv := by
  unfold collectAcc at h
  split at h
  case h_1 ns _ => exact nodesLoop_inv env ns.enum _ a (structAcc_inv data) h
  case h_2 => cases h; exact structAcc_inv data

end CoreV

/-- Counterexample to C5 as stated: for the workflow whose single node has the
prefix-less type `abc` (with a node registry that knows no types), the result
contains a warning-severity issue (`INVALID_NODE_TYPE_FORMAT`) whose message
does not appear in `warnings` — it is routed to `nodeTypeIssues` instead, so
`warnings` is not a full projection of the warning-severity issues. -/
theorem C5_warning_projection_counterexample :
    ((CoreV.validateWorkflowStructure
        ⟨fun _ _ => none, fun _ _ => .error "x", fun _ _ => none⟩
        (.obj [("nodes", .arr [.obj [("name", .str "X"), ("type", .str "abc"),
                 ("typeVersion", .num 1), ("position", .arr [.num 0, .num 0]),
                 ("parameters", .obj [])]]),
               ("connections", .obj [])])).toOption.any (fun r =>
      r.issues.any (fun i => i.severity == CoreV.Severity.warning
        && !(r.warnings.contains i.message)))) = true := by decide

/-- C5 (amended): the response has shape
`valid`/`errors`/`warnings`/`issues` (plus `nodeTypeIssues`), `valid` is true
iff no error-severity issue was accumulated, and `errors` is the exact
message projection of the error-severity issues.  `warnings`, however,
projects only the warning-severity issues other than the two
node-type-format kinds (`INVALID_NODE_TYPE_FORMAT`,
`DEPRECATED_NODE_TYPE_PREFIX`), whose messages are routed to the separate
`nodeTypeIssues` list. -/
theorem C5_amended_response_projections (env : CoreV.NativeEnv) (data : Json)
    (r : CoreV.ValidationResult)
    (h : CoreV.validateWorkflowStructure env data = .ok r) :
    r.errors = (r.issues.filter
      (fun i => i.severity == CoreV.Severity.error)).map (·.message)
    ∧ r.warnings = (r.issues.filter
      (fun i => i.severity == CoreV.Severity.warning
        && i.code != "INVALID_NODE_TYPE_FORMAT"
        && i.code != "DEPRECATED_NODE_TYPE_PREFIX")).map (·.message)
    ∧ r.nodeTypeIssues.getD [] = (r.issues.filter
      (fun i => i.severity == CoreV.Severity.warning
        && (i.code == "INVALID_NODE_TYPE_FORMAT"
          || i.code == "DEPRECATED_NODE_TYPE_PREFIX"))).map (·.message)
    ∧ (r.valid = true ↔ r.errors = []) := by
  unfold CoreV.validateWorkflowStructure at h
  split at h
  · cases h
    refine ⟨rfl, rfl, rfl, by simp⟩
  · split at h
    · cases h
    case h_2 acc hacc =>
      cases h
      obtain ⟨h1, h2, h3⟩ := CoreV.collectAcc_inv env data acc hacc
      refine ⟨h1, h2, ?_, ?_⟩
      · dsimp only
        split
        · exact h3
        case isFalse hlen =>
          have hzero : acc.nodeTypeIssues = [] := by
            cases hn : acc.nodeTypeIssues with
            | nil => rfl
            | cons x xs => exact absurd (by rw [hn]; simp) hlen
          rw [← h3, hzero]
          rfl
      · dsimp only
        rw [List.isEmpty_iff]

/-- Witness for the amended C5, at the counterexample document: the error and
warning projections and the `valid` equivalence hold with the
node-type-format warning routed to `nodeTypeIssues`. -/
theorem C5_amended_response_projections_witness :
    (CoreV.ValidationResult.mk true [] ["Unknown node type: abc"]
        [⟨"INVALID_NODE_TYPE_FORMAT", CoreV.Severity.warning,
          "Node \"X\" has invalid type \"abc\" - must include package prefix (e.g., \"n8n-nodes-base.webhook\")",
          some "nodes[0].type"⟩,
         ⟨"UNKNOWN_NODE_TYPE", CoreV.Severity.warning, "Unknown node type: abc",
          some "nodes[0]"⟩]
        (some ["Node \"X\" has invalid type \"abc\" - must include package prefix (e.g., \"n8n-nodes-base.webhook\")"])).errors
      = (((CoreV.ValidationResult.mk true [] ["Unknown node type: abc"]
        [⟨"INVALID_NODE_TYPE_FORMAT", CoreV.Severity.warning,
          "Node \"X\" has invalid type \"abc\" - must include package prefix (e.g., \"n8n-nodes-base.webhook\")",
          some "nodes[0].type"⟩,
         ⟨"UNKNOWN_NODE_TYPE", CoreV.Severity.warning, "Unknown node type: abc",
          some "nodes[0]"⟩]
        (some ["Node \"X\" has invalid type \"abc\" - must include package prefix (e.g., \"n8n-nodes-base.webhook\")"])).issues.filter
        (fun i => i.severity == CoreV.Severity.error)).map (·.message))
    ∧ (CoreV.ValidationResult.mk true [] ["Unknown node type: abc"]
        [⟨"INVALID_NODE_TYPE_FORMAT", CoreV.Severity.warning,
          "Node \"X\" has invalid type \"abc\" - must include package prefix (e.g., \"n8n-nodes-base.webhook\")",
          some "nodes[0].type"⟩,
         ⟨"UNKNOWN_NODE_TYPE", CoreV.Severity.warning, "Unknown node type: abc",
          some "nodes[0]"⟩]
        (some ["Node \"X\" has invalid type \"abc\" - must include package prefix (e.g., \"n8n-nodes-base.webhook\")"])).warnings
      = (((CoreV.ValidationResult.mk true [] ["Unknown node type: abc"]
        [⟨"INVALID_NODE_TYPE_FORMAT", CoreV.Severity.warning,
          "Node \"X\" has invalid type \"abc\" - must include package prefix (e.g., \"n8n-nodes-base.webhook\")",
          some "nodes[0].type"⟩,
         ⟨"UNKNOWN_NODE_TYPE", CoreV.Severity.warning, "Unknown node type: abc",
          some "nodes[0]"⟩]
        (some ["Node \"X\" has invalid type \"abc\" - must include package prefix (e.g., \"n8n-nodes-base.webhook\")"])).issues.filter
        (fun i => i.severity == CoreV.Severity.warning
          && i.code != "INVALID_NODE_TYPE_FORMAT"
          && i.code != "DEPRECATED_NODE_TYPE_PREFIX")).map (·.message))
    ∧ (CoreV.ValidationResult.mk true [] ["Unknown node type: abc"]
        [⟨"INVALID_NODE_TYPE_FORMAT", CoreV.Severity.warning,
          "Node \"X\" has invalid type \"abc\" - must include package prefix (e.g., \"n8n-nodes-base.webhook\")",
          some "nodes[0].type"⟩,
         ⟨"UNKNOWN_NODE_TYPE", CoreV.Severity.warning, "Unknown node type: abc",
          some "nodes[0]"⟩]
        (some ["Node \"X\" has invalid type \"abc\" - must include package prefix (e.g., \"n8n-nodes-base.webhook\")"])).nodeTypeIssues.getD []
      = (((CoreV.ValidationResult.mk true [] ["Unknown node type: abc"]
        [⟨"INVALID_NODE_TYPE_FORMAT", CoreV.Severity.warning,
          "Node \"X\" has invalid type \"abc\" - must include package prefix (e.g., \"n8n-nodes-base.webhook\")",
          some "nodes[0].type"⟩,
         ⟨"UNKNOWN_NODE_TYPE", CoreV.Severity.warning, "Unknown node type: abc",
          some "nodes[0]"⟩]
        (some ["Node \"X\" has invalid type \"abc\" - must include package prefix (e.g., \"n8n-nodes-base.webhook\")"])).issues.filter
        (fun i => i.severity == CoreV.Severity.warning
          && (i.code == "INVALID_NODE_TYPE_FORMAT"
            || i.code == "DEPRECATED_NODE_TYPE_PREFIX"))).map (·.message))
    ∧ ((CoreV.ValidationResult.mk true [] ["Unknown node type: abc"]
        [⟨"INVALID_NODE_TYPE_FORMAT", CoreV.Severity.warning,
          "Node \"X\" has invalid type \"abc\" - must include package prefix (e.g., \"n8n-nodes-base.webhook\")",
          some "nodes[0].type"⟩,
         ⟨"UNKNOWN_NODE_TYPE", CoreV.Severity.warning, "Unknown node type: abc",
          some "nodes[0]"⟩]
        (some ["Node \"X\" has invalid type \"abc\" - must include package prefix (e.g., \"n8n-nodes-base.webhook\")"])).valid = true
      ↔ (CoreV.ValidationResult.mk true [] ["Unknown node type: abc"]
        [⟨"INVALID_NODE_TYPE_FORMAT", CoreV.Severity.warning,
          "Node \"X\" has invalid type \"abc\" - must include package prefix (e.g., \"n8n-nodes-base.webhook\")",
          some "nodes[0].type"⟩,
         ⟨"UNKNOWN_NODE_TYPE", CoreV.Severity.warning, "Unknown node type: abc",
          some "nodes[0]"⟩]
        (some ["Node \"X\" has invalid type \"abc\" - must include package prefix (e.g., \"n8n-nodes-base.webhook\")"])).errors = []) :=
  C5_amended_response_projections
    ⟨fun _ _ => none, fun _ _ => .error "x", fun _ _ => none⟩
    (.obj [("nodes", .arr [.obj [("name", .str "X"), ("type", .str "abc"),
             ("typeVersion", .num 1), ("position", .arr [.num 0, .num 0]),
             ("parameters", .obj [])]]),
           ("connections", .obj [])])
    (CoreV.ValidationResult.mk true [] ["Unknown node type: abc"]
        [⟨"INVALID_NODE_TYPE_FORMAT", CoreV.Severity.warning,
          "Node \"X\" has invalid type \"abc\" - must include package prefix (e.g., \"n8n-nodes-base.webhook\")",
          some "nodes[0].type"⟩,
         ⟨"UNKNOWN_NODE_TYPE", CoreV.Severity.warning, "Unknown node type: abc",
          some "nodes[0]"⟩]
        (some ["Node \"X\" has invalid type \"abc\" - must include package prefix (e.g., \"n8n-nodes-base.webhook\")"]))
    rfl

/-! ## The schema/validation-rule extractor (`extract.ts`, validation-rules
extractor script) -/

namespace Extract

/-- `displayOptions` of a descriptor: `show`/`hide` maps from sibling field
name to the admissible value set (`show`/`hide` are renamed `dshow`/`dhide`;
`show` is reserved in Lean). -/
structure DOpts where
  dshow : Option (List (String × List Json)) := none
  dhide : Option (List (String × List Json)) := none
deriving DecidableEq

/-- One entry of a descriptor's `options` list, restricted to the fields the
resource/operation extraction reads: its `value` and its own
`displayOptions`. -/
structure POption where
  value : Json
  displayOptions : Option DOpts := none
deriving DecidableEq

/-- A raw parameter descriptor, restricted to the fields read by
`buildValidationRule`, the `extract.ts` rule serialization and
`extractResourceOperations`.  (`typeOptions` and nested `options[i].values`
feed only the `constraints` payload, which no claim references.) -/
structure PProp where
  name : Option String := none
  type : Option String := none
  required : Option Json := none
  dflt : Option Json := none
  displayOptions : Option DOpts := none
  options : Option (List POption) := none
deriving DecidableEq

/-- One `ValidationRule` (the `constraints`/`dependsOn` payloads are dropped:
no claim references them). -/
structure ValidationRule where
  field : String
  type : String
  required : Bool
  displayOptions : Option DOpts
deriving DecidableEq

/-- `buildValidationRule(prop)` from the validation-rules extractor.  `dflt`
models `prop.default` (`none` is JavaScript `undefined`). -/
def buildValidationRule (prop : PProp) : ValidationRule :=
  { field := prop.name.getD ""
    type := match prop.type with
      | some s => if s != "" then s else "string"
      | none => "string"
    required := prop.required == some (Json.bool true)
      || (prop.dflt == none && prop.displayOptions.isNone)
    displayOptions := prop.displayOptions }

/-- `extractPropertyValidationRules(properties)`: one rule per descriptor with
a truthy `name`. -/
def extractPropertyValidationRules (properties : List PProp) : List ValidationRule :=
  properties.filterMap fun prop =>
    match prop.name with
    | some s => if s != "" then some (buildValidationRule prop) else none
    | none => none

/-- The `requiredParameters` computed by `extractSingleNodeValidation`: the
fields of the rules that are required and carry no `displayOptions`. -/
def requiredParametersOf (rules : List ValidationRule) : List String :=
  rules.filterMap fun rule =>
    if rule.required && rule.displayOptions.isNone then some rule.field else none

/-- The `optionalParameters` computed by `extractSingleNodeValidation`: every
other rule's field. -/
def optionalParametersOf (rules : List ValidationRule) : List String :=
  rules.filterMap fun rule =>
    if rule.required && rule.displayOptions.isNone then none else some rule.field

/-- The `required` flag of the validation-rule objects serialized by
`extract.ts` (`p.required === true || (p.default === undefined &&
!p.displayOptions)`). -/
def extractTsRequired (prop : PProp) : Bool :=
  prop.required == some (Json.bool true)
    || (prop.dflt == none && prop.displayOptions.isNone)

/-- Modelled from the spec only for the amended C7, from its words: an
explicit `required: true` forces required; in every other case (absent,
`false`, or any non-`true` value) the descriptor is required iff it has no
default and no `displayOptions`. -/
def amendedRequired (prop : PProp) : Bool :=
  if prop.required == some (Json.bool true) then true
  else prop.dflt == none && prop.displayOptions.isNone

/-- Modelled from the spec only to state C7 as claimed: an explicitly present
`required` value overrides (so explicit `false` means not required); when
absent, required iff no default and no `displayOptions`. -/
def specClaimRequired (prop : PProp) : Bool :=
  match prop.required with
  | some v => v == Json.bool true
  | none => prop.dflt == none && prop.displayOptions.isNone

/-- The truthy names of a descriptor list (what the rule extraction keeps). -/
def namedNames (properties : List PProp) : List String :=
  properties.filterMap fun prop =>
    match prop.name with
    | some s => if s != "" then some s else none
    | none => none

/-- `displayOptions?.show?.[key]`. -/
def showLookup (d : DOpts) (key : String) : Option (List Json) :=
  match d.dshow with
  | some entries => (entries.find? (fun e => e.1 == key)).map (·.2)
  | none => none

/-- The belongs test of `extractResourceOperations`:
`const displayOptions = op.displayOptions || operationProp.displayOptions;
displayOptions?.show?.resource?.includes(resource) || !displayOptions`. -/
def effectiveBelongs (operationProp : PProp) (op : POption) (resource : Json) : Bool :=
  match op.displayOptions.orElse (fun _ => operationProp.displayOptions) with
  | some d =>
    match showLookup d "resource" with
    | some vals => vals.contains resource
    | none => false
  | none => true

/-- The fields gated on a (resource, operation) pair: descriptors whose own
`displayOptions.show` lists the resource under `resource` and the operation
under `operation` (both required). -/
def fieldsForOperation (properties : List PProp) (resource opValue : Json) :
    List (Option String) :=
  (properties.filter fun p =>
    match p.displayOptions with
    | some d =>
      (match showLookup d "resource" with
       | some vals => vals.contains resource
       | none => false)
      && (match showLookup d "operation" with
       | some vals => vals.contains opValue
       | none => false)
    | none => false).map (·.name)

/-- The per-resource payload of `extractResourceOperations`. -/
structure ResOps where
  operations : List Json
  fieldsPerOperation : List (Json × List (Option String))
deriving DecidableEq

/-- `extractResourceOperations(properties)`.  Result keys are the raw
`resource` option values (JavaScript would stringify them as object keys; the
claims only exercise string values). -/
def extractResourceOperations (properties : List PProp) : List (Json × ResOps) :=
  match properties.find? (fun p => p.name == some "resource"),
        properties.find? (fun p => p.name == some "operation") with
  | some resourceProp, some operationProp =>
    let resources : List Json := match resourceProp.options with
      | some opts => opts.map (fun o => o.value)
      | none => []
    resources.filterMap fun resource =>
      let ops : List POption := match operationProp.options with
        | some opOpts => opOpts.filter (fun op => effectiveBelongs operationProp op resource)
        | none => []
      let operations : List Json := ops.map (fun o => o.value)
      let fieldsPerOperation := ops.filterMap fun op =>
        let fieldsForOp := fieldsForOperation properties resource op.value
        if fieldsForOp.length > 0 then some (op.value, fieldsForOp) else none
      if operations.length > 0 then some (resource, ⟨operations, fieldsPerOperation⟩)
      else none
  | _, _ => []

/-- Modelled from the spec only to state C8 as claimed: an operation belongs
to a resource iff the operation option's own `displayOptions.show.resource`
includes the resource value, or the operation option has no `displayOptions`
at all. -/
def specClaimBelongs (op : POption) (resource : Json) : Bool :=
  match op.displayOptions with
  | some d =>
    match showLookup d "resource" with
    | some vals => vals.contains resource
    | none => false
  | none => true

end Extract

/-- Counterexample to C7 as stated: a descriptor with explicit
`required: false`, no default and no `displayOptions`.  The claim's rule says
it is not required (explicit value overrides), but both extraction paths mark
it required. -/
theorem C7_required_flag_counterexample :
    (Extract.buildValidationRule
      ⟨some "x", none, some (Json.bool false), none, none, none⟩).required = true
    ∧ Extract.extractTsRequired
      ⟨some "x", none, some (Json.bool false), none, none, none⟩ = true
    ∧ Extract.specClaimRequired
      ⟨some "x", none, some (Json.bool false), none, none, none⟩ = false :=
  ⟨rfl, rfl, rfl⟩

/-- C7 (amended): an explicit `required: true` forces required; in every
other case — `required` absent, explicitly `false`, or any non-`true` value —
the descriptor is required iff it has no default and no `displayOptions`.
Both extraction paths (`buildValidationRule` and the `extract.ts` rule
serialization) implement exactly this rule. -/
theorem C7_required_flag_amended (prop : Extract.PProp) :
    (Extract.buildValidationRule prop).required = Extract.amendedRequired prop
    ∧ Extract.extractTsRequired prop = Extract.amendedRequired prop := by
  refine ⟨?_, ?_⟩
  · by_cases h : (prop.required == some (Json.bool true)) = true <;>
      simp [Extract.buildValidationRule, Extract.amendedRequired, h]
  · by_cases h : (prop.required == some (Json.bool true)) = true <;>
      simp [Extract.extractTsRequired, Extract.amendedRequired, h]

namespace Extract

theorem rules_fields_eq_namedNames (properties : List PProp) :
    (extractPropertyValidationRules properties).map (·.field) = namedNames properties := by
  unfold extractPropertyValidationRules namedNames
  rw [List.map_filterMap]
  congr 1
  funext prop
  cases hp : prop.name with
  | none => simp
  | some s =>
    by_cases hs : (s != "") = true
    · simp [hp, hs, buildValidationRule]
    · simp [hp, hs]

theorem mem_requiredParametersOf {rules : List ValidationRule} {s : String} :
    s ∈ requiredParametersOf rules
      ↔ ∃ r ∈ rules, (r.required && r.displayOptions.isNone) = true ∧ r.field = s := by
  unfold requiredParametersOf
  rw [List.mem_filterMap]
  constructor
  · rintro ⟨r, hr, h⟩
    by_cases hc : (r.required && r.displayOptions.isNone) = true
    · rw [if_pos hc] at h
      cases h
      exact ⟨r, hr, hc, rfl⟩
    · rw [if_neg hc] at h
      cases h
  · rintro ⟨r, hr, hc, rfl⟩
    exact ⟨r, hr, by rw [if_pos hc]⟩

theorem mem_optionalParametersOf {rules : List ValidationRule} {s : String} :
    s ∈ optionalParametersOf rules
      ↔ ∃ r ∈ rules, ¬((r.required && r.displayOptions.isNone) = true) ∧ r.field = s := by
  unfold optionalParametersOf
  rw [List.mem_filterMap]
  constructor
  · rintro ⟨r, hr, h⟩
    by_cases hc : (r.required && r.displayOptions.isNone) = true
    · rw [if_pos hc] at h
      cases h
    · rw [if_neg hc] at h
      cases h
      exact ⟨r, hr, hc, rfl⟩
  · rintro ⟨r, hr, hc, rfl⟩
    exact ⟨r, hr, by rw [if_neg hc]⟩

end Extract

/-- Counterexample to C6 as stated: two descriptors share the name `foo` (one
unconditional and required, one gated by `displayOptions`), and `foo` then
appears in both `requiredParameters` and `optionalParameters` — the lists are
not disjoint for every extracted schema. -/
theorem C6_disjointness_counterexample :
    "foo" ∈ Extract.requiredParametersOf (Extract.extractPropertyValidationRules
      [⟨some "foo", none, none, none, none, none⟩,
       ⟨some "foo", none, none, none, some ⟨some [("mode", [Json.str "a"])], none⟩, none⟩])
    ∧ "foo" ∈ Extract.optionalParametersOf (Extract.extractPropertyValidationRules
      [⟨some "foo", none, none, none, none, none⟩,
       ⟨some "foo", none, none, none, some ⟨some [("mode", [Json.str "a"])], none⟩, none⟩]) := by
  decide

/-- C6 (amended): unconditionally, the union of `requiredParameters` and
`optionalParameters` covers every descriptor name that is truthy and carries
no `displayOptions` (each rule lands in exactly one of the two lists); and
when the (truthy) descriptor names are pairwise distinct — the situation the
spec's "unique within its declaring scope" data model describes — the two
lists are disjoint. -/
theorem C6_required_optional_partition (properties : List Extract.PProp) :
    ((Extract.namedNames properties).Nodup →
      ∀ s, s ∈ Extract.requiredParametersOf
        (Extract.extractPropertyValidationRules properties) →
      s ∉ Extract.optionalParametersOf
        (Extract.extractPropertyValidationRules properties))
    ∧ (∀ p ∈ properties, ∀ s : String, p.name = some s → s ≠ "" →
      p.displayOptions = none →
      s ∈ Extract.requiredParametersOf (Extract.extractPropertyValidationRules properties)
        ++ Extract.optionalParametersOf (Extract.extractPropertyValidationRules properties)) := by
  constructor
  · intro hnd s hreq hopt
    have hmapnd : ((Extract.extractPropertyValidationRules properties).map (·.field)).Nodup := by
      rw [Extract.rules_fields_eq_namedNames]
      exact hnd
    rw [Extract.mem_requiredParametersOf] at hreq
    rw [Extract.mem_optionalParametersOf] at hopt
    obtain ⟨r1, hr1, hc1, hf1⟩ := hreq
    obtain ⟨r2, hr2, hc2, hf2⟩ := hopt
    have heq : r1 = r2 :=
      List.inj_on_of_nodup_map hmapnd hr1 hr2 (by rw [hf1, hf2])
    rw [heq] at hc1
    exact hc2 hc1
  · intro p hp s hname hs hdo
    have hrule : Extract.buildValidationRule p
        ∈ Extract.extractPropertyValidationRules properties := by
      unfold Extract.extractPropertyValidationRules
      rw [List.mem_filterMap]
      refine ⟨p, hp, ?_⟩
      rw [hname]
      simp [hs]
    have hfield : (Extract.buildValidationRule p).field = s := by
      simp [Extract.buildValidationRule, hname]
    rw [List.mem_append]
    by_cases hc : ((Extract.buildValidationRule p).required
        && (Extract.buildValidationRule p).displayOptions.isNone) = true
    · left
      rw [Extract.mem_requiredParametersOf]
      exact ⟨_, hrule, hc, hfield⟩
    · right
      rw [Extract.mem_optionalParametersOf]
      exact ⟨_, hrule, hc, hfield⟩

/-- Witness for the amended C6 at a two-descriptor schema: `a` (required,
ungated) is not in `optionalParameters`, and is covered by the union. -/
theorem C6_required_optional_partition_witness :
    ("a" ∉ Extract.optionalParametersOf (Extract.extractPropertyValidationRules
      [⟨some "a", none, none, none, none, none⟩,
       ⟨some "b", none, none, some (Json.str "x"), none, none⟩]))
    ∧ ("a" ∈ Extract.requiredParametersOf (Extract.extractPropertyValidationRules
      [⟨some "a", none, none, none, none, none⟩,
       ⟨some "b", none, none, some (Json.str "x"), none, none⟩])
      ++ Extract.optionalParametersOf (Extract.extractPropertyValidationRules
      [⟨some "a", none, none, none, none, none⟩,
       ⟨some "b", none, none, some (Json.str "x"), none, none⟩])) := by
  constructor
  · exact (C6_required_optional_partition
      [⟨some "a", none, none, none, none, none⟩,
       ⟨some "b", none, none, some (Json.str "x"), none, none⟩]).1
      (by decide) "a" (by decide)
  · exact (C6_required_optional_partition
      [⟨some "a", none, none, none, none, none⟩,
       ⟨some "b", none, none, some (Json.str "x"), none, none⟩]).2
      ⟨some "a", none, none, none, none, none⟩ (by decide) "a" rfl (by decide) rfl

/-- Counterexample to C8 as stated: the operation option `op1` carries no
`displayOptions` of its own, so by the claim it is a global operation
belonging to resource `r`; but the source falls back to the `operation`
field descriptor's `displayOptions` (which lists only `other`), so the
extracted map is empty and `op1` belongs to nothing. -/
theorem C8_resource_operations_counterexample :
    Extract.specClaimBelongs ⟨Json.str "op1", none⟩ (Json.str "r") = true
    ∧ Extract.extractResourceOperations
      [⟨some "resource", none, none, none, none, some [⟨Json.str "r", none⟩]⟩,
       ⟨some "operation", none, none, none,
        some ⟨some [("resource", [Json.str "other"])], none⟩,
        some [⟨Json.str "op1", none⟩]⟩] = [] := by
  constructor
  · rfl
  · rfl

/-- C8 (amended): in `extractResourceOperations`, an operation value belongs
to a resource value iff the resource is enumerated by the `resource`
descriptor and some `operation` option with that value passes the effective
display-options test: the option's own `displayOptions`, or — when the option
has none — the `operation` field descriptor's `displayOptions`, must list the
resource under `show.resource`; only when both are absent is the operation
global. -/
theorem C8_resource_operations_amended (properties : List Extract.PProp)
    (resourceProp operationProp : Extract.PProp)
    (hr : properties.find? (fun p => p.name == some "resource") = some resourceProp)
    (ho : properties.find? (fun p => p.name == some "operation") = some operationProp)
    (r opv : Json) :
    ((Extract.extractResourceOperations properties).any
        (fun e => e.1 == r && e.2.operations.contains opv))
      = (((resourceProp.options.getD []).map (fun o => o.value)).contains r
        && ((operationProp.options.getD []).any
          (fun op => op.value == opv && Extract.effectiveBelongs operationProp op r))) := by
  rw [Bool.eq_iff_iff]
  unfold Extract.extractResourceOperations
  rw [hr, ho]
  dsimp only
  rcases hro : resourceProp.options with _ | opts
  · simp [hro]
  rcases hoo : operationProp.options with _ | opOpts
  · simp [hoo]
  dsimp only
  constructor
  · intro h
    rw [List.any_eq_true] at h
    obtain ⟨e, he, hcond⟩ := h
    rw [List.mem_filterMap] at he
    obtain ⟨resource, hres, hf⟩ := he
    split at hf
    case isTrue hlen =>
      cases hf
      rw [Bool.and_eq_true] at hcond
      obtain ⟨hc1, hc2⟩ := hcond
      dsimp only at hc1 hc2
      have hrr : resource = r := eq_of_beq hc1
      subst hrr
      have hopv : opv ∈ (opOpts.filter
          (fun op => Extract.effectiveBelongs operationProp op resource)).map
          (fun o => o.value) := List.elem_iff.mp hc2
      rw [List.mem_map] at hopv
      obtain ⟨op, hopf, hval⟩ := hopv
      rw [List.mem_filter] at hopf
      obtain ⟨hop, hbel⟩ := hopf
      rw [Bool.and_eq_true]
      constructor
      · exact List.elem_iff.mpr hres
      · rw [List.any_eq_true]
        refine ⟨op, hop, ?_⟩
        rw [Bool.and_eq_true]
        exact ⟨by rw [hval]; exact beq_self_eq_true opv, hbel⟩
    case isFalse => cases hf
  · intro h
    rw [Bool.and_eq_true] at h
    obtain ⟨hcont, hany⟩ := h
    have hmemr : r ∈ opts.map (fun o => o.value) := List.elem_iff.mp hcont
    rw [List.any_eq_true] at hany
    obtain ⟨op, hop, hopcond⟩ := hany
    rw [Bool.and_eq_true] at hopcond
    obtain ⟨hval, hbel⟩ := hopcond
    have hopvmem : opv ∈ (opOpts.filter
        (fun op => Extract.effectiveBelongs operationProp op r)).map
        (fun o => o.value) := by
      rw [List.mem_map]
      exact ⟨op, List.mem_filter.mpr ⟨hop, hbel⟩, eq_of_beq hval⟩
    have hlen : 0 < ((opOpts.filter
        (fun op => Extract.effectiveBelongs operationProp op r)).map
        (fun o => o.value)).length := List.length_pos.mpr (by
      intro hnil
      rw [hnil] at hopvmem
      cases hopvmem)
    rw [List.any_eq_true]
    refine ⟨(r, ⟨(opOpts.filter
        (fun op => Extract.effectiveBelongs operationProp op r)).map (fun o => o.value),
      (opOpts.filter (fun op => Extract.effectiveBelongs operationProp op r)).filterMap
        (fun op =>
          let fieldsForOp := Extract.fieldsForOperation properties r op.value
          if fieldsForOp.length > 0 then some (op.value, fieldsForOp) else none)⟩),
      ?_, ?_⟩
    · rw [List.mem_filterMap]
      refine ⟨r, hmemr, ?_⟩
      dsimp only
      rw [if_pos hlen]
    · dsimp only
      rw [Bool.and_eq_true]
      exact ⟨beq_self_eq_true r, List.elem_iff.mpr hopvmem⟩

/-- Witness for the amended C8: with a `user` resource and a globally visible
(`displayOptions`-free on both levels) `create` operation, both sides of the
characterization evaluate to `true`. -/
theorem C8_resource_operations_amended_witness :
    ((Extract.extractResourceOperations
        [⟨some "resource", none, none, none, none, some [⟨Json.str "user", none⟩]⟩,
         ⟨some "operation", none, none, none, none, some [⟨Json.str "create", none⟩]⟩]).any
        (fun e => e.1 == Json.str "user" && e.2.operations.contains (Json.str "create")))
      = ((((⟨some "resource", none, none, none, none, some [⟨Json.str "user", none⟩]⟩ :
            Extract.PProp).options.getD []).map (fun o => o.value)).contains (Json.str "user")
        && (((⟨some "operation", none, none, none, none, some [⟨Json.str "create", none⟩]⟩ :
            Extract.PProp).options.getD []).any
          (fun op => op.value == Json.str "create"
            && Extract.effectiveBelongs
              ⟨some "operation", none, none, none, none, some [⟨Json.str "create", none⟩]⟩
              op (Json.str "user")))) :=
  C8_resource_operations_amended
    [⟨some "resource", none, none, none, none, some [⟨Json.str "user", none⟩]⟩,
     ⟨some "operation", none, none, none, none, some [⟨Json.str "create", none⟩]⟩]
    ⟨some "resource", none, none, none, none, some [⟨Json.str "user", none⟩]⟩
    ⟨some "operation", none, none, none, none, some [⟨Json.str "create", none⟩]⟩
    rfl rfl (Json.str "user") (Json.str "create")

/-! ## The experimental workflow fixer (`src/core/fixer.ts`) -/

namespace Fixer

/-- `3.2`, as the exact rational 16/5, built directly so every comparison
evaluates inside the kernel.  (The JavaScript double nearest to 3.2 compares
identically against every `typeVersion` the schema uses.) -/
def threePointTwo : Rat := ⟨16, 5, by norm_num, by norm_num⟩

/-- One `if (!(k in opts)) opts[k] = v` step of the fix. -/
def addIfMissing (o : Json) (k : String) (v : Json) : Json :=
  if o.hasKey k then o else Json.setKey o k v

/-- The rule-conditions `options` object after the fix: the original value
when it is of object type (a fresh empty object otherwise), extended with
each missing key in program order — `caseSensitive: true`, `leftValue: ''`,
`typeValidation: 'strict'`, and, only when `typeVersion >= 3.2`,
`version: 2`.  `baseOf` is the step replacing a non-object `opts` with a fresh
empty object. -/
def baseOf (opts : Option Json) : Json :=
  match opts with
  | some o => if o.truthy && o.typeofObject then o else Json.obj []
  | none => Json.obj []

def extendOpts (tv : Rat) (opts : Option Json) : Json :=
  let b1 := addIfMissing (baseOf opts) "caseSensitive" (Json.bool true)
  let b2 := addIfMissing b1 "leftValue" (Json.str "")
  let b3 := addIfMissing b2 "typeValidation" (Json.str "strict")
  if threePointTwo ≤ tv then addIfMissing b3 "version" (Json.num 2) else b3

/-- `conditions.options = opts` after extension. -/
def fixConditions (tv : Rat) (conditions : Json) : Json :=
  Json.setKey conditions "options" (extendOpts tv (Json.jsGet conditions "options"))

/-- The per-rule body of the fix loop (`!rule || typeof rule !== 'object'` and
`!conditions || typeof conditions !== 'object'` guards included). -/
def fixRule (tv : Rat) (rule : Json) : Json :=
  if !(rule.truthy && rule.typeofObject) then rule
  else match Json.jsGet rule "conditions" with
    | some c =>
      if c.truthy && c.typeofObject then
        Json.setKey rule "conditions" (fixConditions tv c)
      else rule
    | none => rule

/-- The targeting test: type exactly `n8n-nodes-base.switch` with a numeric
`typeVersion` at least 3. -/
def switchV3Matched (node : Json) : Bool :=
  (Json.jsGet node "type" == some (Json.str "n8n-nodes-base.switch"))
    && (match Json.jsGet node "typeVersion" with
      | some (.num q) => (3 : Rat) ≤ q
      | _ => false)

/-- The (numeric) `typeVersion`; only read on matched nodes. -/
def typeVersionOf (node : Json) : Rat :=
  match Json.jsGet node "typeVersion" with
  | some (.num q) => q
  | _ => 0

/-- The per-node body of `fixSwitchV3RuleConditionsOptions`: the in-place
mutation of `parameters.rules.values[*].conditions.options`, as the rebuilt
node value. -/
def fixNode (node : Json) : Json :=
  if !(node.truthy && node.typeofObject) then node
  else if !(switchV3Matched node) then node
  else
    match Json.jsGet node "parameters" with
    | none => node
    | some params =>
      if !params.truthy then node
      else match Json.jsGet params "rules" with
        | none => node
        | some rules =>
          if !(rules.truthy && rules.typeofObject) then node
          else match Json.jsGet rules "values" with
            | some (.arr values) =>
              Json.setKey node "parameters" (Json.setKey params "rules"
                (Json.setKey rules "values"
                  (Json.arr (values.map (fixRule (typeVersionOf node))))))
            | _ => node

/-- `fixSwitchV3RuleConditionsOptions.apply(workflow)`, as the rebuilt
workflow value.  (The returned `FixResult` counters and warning strings do
not touch the workflow and are outside every claim.) -/
def fixSwitchV3RuleConditionsOptions (workflow : Json) : Json :=
  match Json.jsGet workflow "nodes" with
  | some (.arr ns) => Json.setKey workflow "nodes" (Json.arr (ns.map fixNode))
  | _ => workflow

/-- A step of a path into a JSON tree. -/
inductive PathStep where
  | key (k : String)
  | idx (i : Nat)
deriving DecidableEq

/-- Read a nested value along a path. -/
def getPath : Json → List PathStep → Option Json
  | v, [] => some v
  | v, .key k :: p =>
    (match Json.jsGet v k with
     | some w => getPath w p
     | none => none)
  | v, .idx i :: p =>
    (match v with
     | .arr xs =>
       (match xs[i]? with
        | some w => getPath w p
        | none => none)
     | _ => none)

/-- The path of rule `j`'s `conditions.options` object. -/
def bp (j : Nat) : List PathStep :=
  [.key "parameters", .key "rules", .key "values", .idx j,
   .key "conditions", .key "options"]

/-- Key presence in a possibly-absent `options` value. -/
def optsHasKey (opts : Option Json) (k : String) : Bool :=
  match opts with
  | some o => o.hasKey k
  | none => false

/-- Shape condition under which the functional model coincides with the
in-place JavaScript mutation: no rule's `conditions`, and no
`conditions.options`, is an array (JavaScript would attach properties to the
array object, which `Json` cannot represent). -/
def nodeRulesShapeOk (node : Json) : Bool :=
  match getPath node [.key "parameters", .key "rules", .key "values"] with
  | some (.arr values) => values.all fun rule =>
      match Json.jsGet rule "conditions" with
      | some (.arr _) => false
      | some c =>
        (match Json.jsGet c "options" with
         | some (.arr _) => false
         | _ => true)
      | none => true
  | _ => true

/-- The same shape condition for one `options` value. -/
def optsShapeOk (opts : Option Json) : Bool :=
  match opts with
  | some (.arr _) => false
  | _ => true

/-! ### Object-update frame lemmas -/

lemma jsGet_isObj {v w : Json} {k : String} (h : Json.jsGet v k = some w) :
    v.isObj = true := by
  cases v <;> simp [Json.jsGet, Json.isObj] at h ⊢

lemma isObj_truthy {v : Json} (h : v.isObj = true) : v.truthy = true := by
  cases v <;> simp_all [Json.isObj, Json.truthy]

lemma isObj_typeofObject {v : Json} (h : v.isObj = true) :
    v.typeofObject = true := by
  cases v <;> simp_all [Json.isObj, Json.typeofObject]

lemma isObj_iff (v : Json) : v.isObj = true ↔ ∃ fs, v = Json.obj fs := by
  cases v <;> simp [Json.isObj]

lemma find_setField_same (fs : List (String × Json)) (k : String) (v : Json) :
    ((Json.setField fs k v).find? (fun f => f.1 == k)).map (fun f => f.2)
      = some v := by
  induction fs with
  | nil => simp [Json.setField, List.find?]
  | cons f fs ih =>
    obtain ⟨k1, v1⟩ := f
    by_cases h : k1 == k
    · rw [Json.setField, if_pos h]
      simp [List.find?, h]
    · rw [Json.setField, if_neg h]
      simpa [List.find?, h] using ih

lemma find_setField_other (fs : List (String × Json)) (k kq : String) (v : Json)
    (h : kq ≠ k) :
    (Json.setField fs k v).find? (fun f => f.1 == kq)
      = fs.find? (fun f => f.1 == kq) := by
  induction fs with
  | nil =>
    simp only [Json.setField, List.find?]
    have : ((k == kq) = false) := beq_eq_false_iff_ne.mpr (Ne.symm h)
    simp [this]
  | cons f fs ih =>
    obtain ⟨k1, v1⟩ := f
    by_cases hk : k1 == k
    · rw [Json.setField, if_pos hk]
      have hk1 : k1 = k := eq_of_beq hk
      subst hk1
      have : ((k1 == kq) = false) := beq_eq_false_iff_ne.mpr (Ne.symm h)
      simp [List.find?, this]
    · rw [Json.setField, if_neg hk]
      by_cases hq : k1 == kq
      · simp [List.find?, hq]
      · simp only [List.find?]
        rw [Bool.eq_false_iff.mpr hq]
        exact ih

lemma jsGet_setKey_self (o : Json) (ho : o.isObj = true) (k : String) (v : Json) :
    Json.jsGet (Json.setKey o k v) k = some v := by
  obtain ⟨fs, rfl⟩ := (isObj_iff o).mp ho
  simpa [Json.setKey, Json.jsGet] using find_setField_same fs k v

lemma jsGet_setKey_other (o : Json) (k kq : String) (v : Json) (h : kq ≠ k) :
    Json.jsGet (Json.setKey o k v) kq = Json.jsGet o kq := by
  cases o <;> simp [Json.setKey, Json.jsGet]
  rw [find_setField_other _ _ _ _ h]

lemma setKey_isObj (o : Json) (k : String) (v : Json) :
    (Json.setKey o k v).isObj = o.isObj := by
  cases o <;> rfl

lemma hasKey_eq_isSome (o : Json) (k : String) :
    o.hasKey k = (Json.jsGet o k).isSome := by
  cases o <;> simp [Json.hasKey, Json.jsGet]
  rw [Bool.eq_iff_iff]
  simp [List.any_eq_true, List.find?_isSome]

lemma jsGet_none_of_hasKey (o : Json) (k : String) (h : o.hasKey k = false) :
    Json.jsGet o k = none := by
  rw [hasKey_eq_isSome] at h
  exact Option.not_isSome_iff_eq_none.mp (by simp [h])

lemma hasKey_setKey_self (o : Json) (ho : o.isObj = true) (k : String) (v : Json) :
    (Json.setKey o k v).hasKey k = true := by
  rw [hasKey_eq_isSome, jsGet_setKey_self o ho k v]
  rfl

lemma hasKey_setKey_other (o : Json) (k kq : String) (v : Json) (h : kq ≠ k) :
    (Json.setKey o k v).hasKey kq = o.hasKey kq := by
  rw [hasKey_eq_isSome, hasKey_eq_isSome, jsGet_setKey_other o k kq v h]

/-! ### Path-reading equations -/

lemma getPath_key (v : Json) (k : String) (p : List PathStep) :
    getPath v (.key k :: p)
      = (match Json.jsGet v k with
         | some w => getPath w p
         | none => none) := rfl

lemma getPath_key_some {v w : Json} {k : String} (p : List PathStep)
    (h : Json.jsGet v k = some w) :
    getPath v (.key k :: p) = getPath w p := by
  rw [getPath_key, h]

lemma getPath_key_none {v : Json} {k : String} (p : List PathStep)
    (h : Json.jsGet v k = none) :
    getPath v (.key k :: p) = none := by
  rw [getPath_key, h]

lemma getPath_idx_arr (xs : List Json) (i : Nat) (p : List PathStep) :
    getPath (Json.arr xs) (.idx i :: p)
      = (match xs[i]? with
         | some w => getPath w p
         | none => none) := rfl

lemma cons_prefix_cons_iff {α : Type} (a b : α) (l m : List α) :
    (a :: l <+: b :: m) ↔ a = b ∧ l <+: m := by
  constructor
  · rintro ⟨t, ht⟩
    injection ht with h1 h2
    exact ⟨h1, t, h2⟩
  · rintro ⟨rfl, t, ht⟩
    exact ⟨t, by rw [List.cons_append, ht]⟩

/-! ### `addIfMissing` and `extendOpts` effect lemmas -/

lemma addIfMissing_of_hasKey (o : Json) (k : String) (v : Json)
    (h : o.hasKey k = true) : addIfMissing o k v = o := by
  rw [addIfMissing, if_pos h]

lemma jsGet_addIfMissing_missing (o : Json) (k : String) (v : Json)
    (ho : o.isObj = true) (h : o.hasKey k = false) :
    Json.jsGet (addIfMissing o k v) k = some v := by
  rw [addIfMissing, if_neg (by simp [h])]
  exact jsGet_setKey_self o ho k v

lemma jsGet_addIfMissing_other (o : Json) (k kq : String) (v : Json)
    (h : kq ≠ k) :
    Json.jsGet (addIfMissing o k v) kq = Json.jsGet o kq := by
  rw [addIfMissing]
  split
  · rfl
  · exact jsGet_setKey_other o k kq v h

lemma hasKey_addIfMissing_other (o : Json) (k kq : String) (v : Json)
    (h : kq ≠ k) :
    (addIfMissing o k v).hasKey kq = o.hasKey kq := by
  rw [hasKey_eq_isSome, hasKey_eq_isSome, jsGet_addIfMissing_other o k kq v h]

lemma addIfMissing_isObj (o : Json) (k : String) (v : Json) :
    (addIfMissing o k v).isObj = o.isObj := by
  rw [addIfMissing]
  split
  · rfl
  · exact setKey_isObj o k v

/-- One update step leaves a key that the object already carries untouched. -/
lemma step_same (o o2 : Json) (k ka : String) (v : Json)
    (h1 : Json.jsGet o2 k = Json.jsGet o k) (h2 : o2.hasKey k = true) :
    Json.jsGet (addIfMissing o2 ka v) k = Json.jsGet o k
      ∧ (addIfMissing o2 ka v).hasKey k = true := by
  by_cases hk : ka = k
  · subst hk
    rw [addIfMissing_of_hasKey o2 ka v h2]
    exact ⟨h1, h2⟩
  · have hne : k ≠ ka := Ne.symm hk
    exact ⟨(jsGet_addIfMissing_other o2 ka k v hne).trans h1,
      (hasKey_addIfMissing_other o2 ka k v hne).trans h2⟩

lemma jsGet_baseOf (opts : Option Json) (k : String) :
    Json.jsGet (baseOf opts) k = opts.bind (fun o => Json.jsGet o k) := by
  cases opts with
  | none => rfl
  | some o =>
    cases o <;> simp [baseOf, Json.jsGet, Json.truthy, Json.typeofObject]

lemma hasKey_baseOf (opts : Option Json) (k : String) :
    (baseOf opts).hasKey k = optsHasKey opts k := by
  rw [hasKey_eq_isSome, jsGet_baseOf]
  cases opts with
  | none => rfl
  | some o =>
    simp only [Option.bind, optsHasKey]
    exact (hasKey_eq_isSome o k).symm

lemma baseOf_isObj (opts : Option Json) (h : optsShapeOk opts = true) :
    (baseOf opts).isObj = true := by
  cases opts with
  | none => rfl
  | some o => cases o <;> simp_all [baseOf, optsShapeOk, Json.truthy,
      Json.typeofObject, Json.isObj]

/-- A key already present in the original `options` object keeps its value. -/
lemma extendOpts_present (tv : Rat) (opts : Option Json) (k : String)
    (h : optsHasKey opts k = true) :
    Json.jsGet (extendOpts tv opts) k = opts.bind (fun o => Json.jsGet o k) := by
  have h0 : (baseOf opts).hasKey k = true := (hasKey_baseOf opts k).trans h
  have s1 := step_same (baseOf opts) (baseOf opts) k "caseSensitive"
    (Json.bool true) rfl h0
  have s2 := step_same (baseOf opts) _ k "leftValue" (Json.str "") s1.1 s1.2
  have s3 := step_same (baseOf opts) _ k "typeValidation" (Json.str "strict")
    s2.1 s2.2
  rw [extendOpts]
  split
  · have s4 := step_same (baseOf opts) _ k "version" (Json.num 2) s3.1 s3.2
    rw [s4.1, jsGet_baseOf]
  · rw [s3.1, jsGet_baseOf]

/-- Keys other than the four defaulted ones read the same from the extended
object as from the original value. -/
lemma extendOpts_other (tv : Rat) (opts : Option Json) (k : String)
    (h1 : k ≠ "caseSensitive") (h2 : k ≠ "leftValue")
    (h3 : k ≠ "typeValidation") (h4 : k ≠ "version") :
    Json.jsGet (extendOpts tv opts) k = opts.bind (fun o => Json.jsGet o k) := by
  rw [extendOpts]
  split
  · rw [jsGet_addIfMissing_other _ _ _ _ h4, jsGet_addIfMissing_other _ _ _ _ h3,
      jsGet_addIfMissing_other _ _ _ _ h2, jsGet_addIfMissing_other _ _ _ _ h1,
      jsGet_baseOf]
  · rw [jsGet_addIfMissing_other _ _ _ _ h3, jsGet_addIfMissing_other _ _ _ _ h2,
      jsGet_addIfMissing_other _ _ _ _ h1, jsGet_baseOf]

/-- A missing `caseSensitive` key is filled with `true`. -/
lemma extendOpts_missing_cs (tv : Rat) (opts : Option Json)
    (hs : optsShapeOk opts = true)
    (h : optsHasKey opts "caseSensitive" = false) :
    Json.jsGet (extendOpts tv opts) "caseSensitive" = some (Json.bool true) := by
  have hb : (baseOf opts).hasKey "caseSensitive" = false :=
    (hasKey_baseOf opts _).trans h
  have h1 := jsGet_addIfMissing_missing (baseOf opts) "caseSensitive"
    (Json.bool true) (baseOf_isObj opts hs) hb
  rw [extendOpts]
  split
  · rw [jsGet_addIfMissing_other _ _ _ _ (by decide),
      jsGet_addIfMissing_other _ _ _ _ (by decide),
      jsGet_addIfMissing_other _ _ _ _ (by decide), h1]
  · rw [jsGet_addIfMissing_other _ _ _ _ (by decide),
      jsGet_addIfMissing_other _ _ _ _ (by decide), h1]

/-- A missing `leftValue` key is filled with the empty string. -/
lemma extendOpts_missing_lv (tv : Rat) (opts : Option Json)
    (hs : optsShapeOk opts = true)
    (h : optsHasKey opts "leftValue" = false) :
    Json.jsGet (extendOpts tv opts) "leftValue" = some (Json.str "") := by
  have hb : (addIfMissing (baseOf opts) "caseSensitive" (Json.bool true)).hasKey
      "leftValue" = false := by
    rw [hasKey_addIfMissing_other _ _ _ _ (by decide), hasKey_baseOf]
    exact h
  have ho : (addIfMissing (baseOf opts) "caseSensitive" (Json.bool true)).isObj
      = true := by
    rw [addIfMissing_isObj]
    exact baseOf_isObj opts hs
  have h1 := jsGet_addIfMissing_missing _ "leftValue" (Json.str "") ho hb
  rw [extendOpts]
  split
  · rw [jsGet_addIfMissing_other _ _ _ _ (by decide),
      jsGet_addIfMissing_other _ _ _ _ (by decide), h1]
  · rw [jsGet_addIfMissing_other _ _ _ _ (by decide), h1]

/-- A missing `typeValidation` key is filled with `'strict'`. -/
lemma extendOpts_missing_tval (tv : Rat) (opts : Option Json)
    (hs : optsShapeOk opts = true)
    (h : optsHasKey opts "typeValidation" = false) :
    Json.jsGet (extendOpts tv opts) "typeValidation"
      = some (Json.str "strict") := by
  have hb : (addIfMissing (addIfMissing (baseOf opts) "caseSensitive"
      (Json.bool true)) "leftValue" (Json.str "")).hasKey
      "typeValidation" = false := by
    rw [hasKey_addIfMissing_other _ _ _ _ (by decide),
      hasKey_addIfMissing_other _ _ _ _ (by decide), hasKey_baseOf]
    exact h
  have ho : (addIfMissing (addIfMissing (baseOf opts) "caseSensitive"
      (Json.bool true)) "leftValue" (Json.str "")).isObj = true := by
    rw [addIfMissing_isObj, addIfMissing_isObj]
    exact baseOf_isObj opts hs
  have h1 := jsGet_addIfMissing_missing _ "typeValidation" (Json.str "strict")
    ho hb
  rw [extendOpts]
  split
  · rw [jsGet_addIfMissing_other _ _ _ _ (by decide), h1]
  · rw [h1]

/-- A missing `version` key is filled with `2` exactly when the node's
`typeVersion` is at least 3.2. -/
lemma extendOpts_missing_version (tv : Rat) (opts : Option Json)
    (hs : optsShapeOk opts = true)
    (h : optsHasKey opts "version" = false) :
    Json.jsGet (extendOpts tv opts) "version"
      = if threePointTwo ≤ tv then some (Json.num 2) else none := by
  have hb : (addIfMissing (addIfMissing (addIfMissing (baseOf opts)
      "caseSensitive" (Json.bool true)) "leftValue" (Json.str ""))
      "typeValidation" (Json.str "strict")).hasKey "version" = false := by
    rw [hasKey_addIfMissing_other _ _ _ _ (by decide),
      hasKey_addIfMissing_other _ _ _ _ (by decide),
      hasKey_addIfMissing_other _ _ _ _ (by decide), hasKey_baseOf]
    exact h
  have ho : (addIfMissing (addIfMissing (addIfMissing (baseOf opts)
      "caseSensitive" (Json.bool true)) "leftValue" (Json.str ""))
      "typeValidation" (Json.str "strict")).isObj = true := by
    rw [addIfMissing_isObj, addIfMissing_isObj, addIfMissing_isObj]
    exact baseOf_isObj opts hs
  rw [extendOpts]
  split
  · exact jsGet_addIfMissing_missing _ "version" (Json.num 2) ho hb
  · exact jsGet_none_of_hasKey _ _ hb

/-! ### The shape of `fixNode`: either the node is untouched, or exactly the
`parameters.rules.values` spine is rebuilt with the mapped rules. -/

lemma fixNode_cases (node : Json) :
    fixNode node = node ∨
    ∃ (P R : Json) (values : List Json),
      node.isObj = true ∧ P.isObj = true ∧ R.isObj = true ∧
      Json.jsGet node "parameters" = some P ∧
      Json.jsGet P "rules" = some R ∧
      Json.jsGet R "values" = some (Json.arr values) ∧
      fixNode node = Json.setKey node "parameters" (Json.setKey P "rules"
        (Json.setKey R "values"
          (Json.arr (values.map (fixRule (typeVersionOf node)))))) := by
  unfold fixNode
  split
  · left; rfl
  · split
    · left; rfl
    · split
      next hP => left; rfl
      next params hP =>
        split
        · left; rfl
        · split
          next hR => left; rfl
          next rules hR =>
            split
            · left; rfl
            · split
              next values hV =>
                right
                exact ⟨params, rules, values, jsGet_isObj hP, jsGet_isObj hR,
                  jsGet_isObj hV, hP, hR, hV, rfl⟩
              next hV => left; rfl

/-! ### Frame lemmas, bottom-up along the spine -/

lemma frame_conditions (c : Json) (tv : Rat) (p : List PathStep)
    (h1 : ¬ ([PathStep.key "options"] <+: p))
    (h2 : ¬ (p <+: [PathStep.key "options"])) :
    getPath (fixConditions tv c) p = getPath c p := by
  cases p with
  | nil => exact absurd List.nil_prefix h2
  | cons s p2 =>
    cases s with
    | idx i =>
      rw [fixConditions]
      cases c <;> rfl
    | key k =>
      by_cases hk : k = "options"
      · subst hk
        exact absurd ((cons_prefix_cons_iff _ _ _ _).mpr
          ⟨rfl, List.nil_prefix⟩) h1
      · rw [fixConditions, getPath_key, getPath_key,
          jsGet_setKey_other _ _ _ _ hk]

lemma frame_rule (rule : Json) (tv : Rat) (p : List PathStep)
    (h1 : ¬ ([PathStep.key "conditions", .key "options"] <+: p))
    (h2 : ¬ (p <+: [PathStep.key "conditions", .key "options"])) :
    getPath (fixRule tv rule) p = getPath rule p := by
  rw [fixRule]
  split
  · rfl
  · split
    next c hc =>
      split
      next hct =>
        cases p with
        | nil => exact absurd List.nil_prefix h2
        | cons s p2 =>
          cases s with
          | idx i =>
            have ho := jsGet_isObj hc
            obtain ⟨fs, rfl⟩ := (isObj_iff rule).mp ho
            rfl
          | key k =>
            by_cases hk : k = "conditions"
            · subst hk
              rw [getPath_key_some p2
                  (jsGet_setKey_self rule (jsGet_isObj hc) _ _),
                getPath_key_some p2 hc]
              refine frame_conditions c tv p2 (fun hx => h1 ?_)
                (fun hx => h2 ?_)
              · exact (cons_prefix_cons_iff _ _ _ _).mpr ⟨rfl, hx⟩
              · exact (cons_prefix_cons_iff _ _ _ _).mpr ⟨rfl, hx⟩
            · rw [getPath_key, getPath_key, jsGet_setKey_other _ _ _ _ hk]
      next hct => rfl
    next hc => rfl

lemma frame_arr (values : List Json) (tv : Rat) (p : List PathStep)
    (h : ∀ j : Nat,
      ¬ ((PathStep.idx j :: [PathStep.key "conditions", .key "options"]) <+: p)
      ∧ ¬ (p <+: PathStep.idx j :: [PathStep.key "conditions", .key "options"])) :
    getPath (Json.arr (values.map (fixRule tv))) p
      = getPath (Json.arr values) p := by
  cases p with
  | nil => exact absurd List.nil_prefix (h 0).2
  | cons s p2 =>
    cases s with
    | key k => rfl
    | idx i =>
      rw [getPath_idx_arr, getPath_idx_arr, List.getElem?_map]
      cases hv : values[i]? with
      | none => rfl
      | some rule =>
        simp only [Option.map_some]
        refine frame_rule rule tv p2 (fun hx => (h i).1 ?_)
          (fun hx => (h i).2 ?_)
        · exact (cons_prefix_cons_iff _ _ _ _).mpr ⟨rfl, hx⟩
        · exact (cons_prefix_cons_iff _ _ _ _).mpr ⟨rfl, hx⟩

lemma frame_values (R : Json) (values : List Json) (tv : Rat)
    (hV : Json.jsGet R "values" = some (Json.arr values)) (p : List PathStep)
    (h : ∀ j : Nat,
      ¬ ((PathStep.key "values" :: .idx j ::
          [PathStep.key "conditions", .key "options"]) <+: p)
      ∧ ¬ (p <+: PathStep.key "values" :: .idx j ::
          [PathStep.key "conditions", .key "options"])) :
    getPath (Json.setKey R "values"
        (Json.arr (values.map (fixRule tv)))) p
      = getPath R p := by
  cases p with
  | nil => exact absurd List.nil_prefix (h 0).2
  | cons s p2 =>
    cases s with
    | idx i =>
      obtain ⟨fs, rfl⟩ := (isObj_iff R).mp (jsGet_isObj hV)
      rfl
    | key k =>
      by_cases hk : k = "values"
      · subst hk
        rw [getPath_key_some p2 (jsGet_setKey_self R (jsGet_isObj hV) _ _),
          getPath_key_some p2 hV]
        refine frame_arr values tv p2 (fun j => ⟨fun hx => (h j).1 ?_,
          fun hx => (h j).2 ?_⟩)
        · exact (cons_prefix_cons_iff _ _ _ _).mpr ⟨rfl, hx⟩
        · exact (cons_prefix_cons_iff _ _ _ _).mpr ⟨rfl, hx⟩
      · rw [getPath_key, getPath_key, jsGet_setKey_other _ _ _ _ hk]

lemma frame_rules (P R : Json) (values : List Json) (tv : Rat)
    (hR : Json.jsGet P "rules" = some R)
    (hV : Json.jsGet R "values" = some (Json.arr values)) (p : List PathStep)
    (h : ∀ j : Nat,
      ¬ ((PathStep.key "rules" :: .key "values" :: .idx j ::
          [PathStep.key "conditions", .key "options"]) <+: p)
      ∧ ¬ (p <+: PathStep.key "rules" :: .key "values" :: .idx j ::
          [PathStep.key "conditions", .key "options"])) :
    getPath (Json.setKey P "rules" (Json.setKey R "values"
        (Json.arr (values.map (fixRule tv))))) p
      = getPath P p := by
  cases p with
  | nil => exact absurd List.nil_prefix (h 0).2
  | cons s p2 =>
    cases s with
    | idx i =>
      obtain ⟨fs, rfl⟩ := (isObj_iff P).mp (jsGet_isObj hR)
      rfl
    | key k =>
      by_cases hk : k = "rules"
      · subst hk
        rw [getPath_key_some p2 (jsGet_setKey_self P (jsGet_isObj hR) _ _),
          getPath_key_some p2 hR]
        refine frame_values R values tv hV p2 (fun j => ⟨fun hx => (h j).1 ?_,
          fun hx => (h j).2 ?_⟩)
        · exact (cons_prefix_cons_iff _ _ _ _).mpr ⟨rfl, hx⟩
        · exact (cons_prefix_cons_iff _ _ _ _).mpr ⟨rfl, hx⟩
      · rw [getPath_key, getPath_key, jsGet_setKey_other _ _ _ _ hk]

/-- The frame property of the per-node fix: a path unrelated (in either
direction) to every per-rule `conditions.options` site reads the same value
before and after the fix. -/
lemma fixNode_frame (node : Json) (p : List PathStep)
    (h : ∀ j : Nat, ¬ (bp j <+: p) ∧ ¬ (p <+: bp j)) :
    getPath (fixNode node) p = getPath node p := by
  rcases fixNode_cases node with heq |
    ⟨P, R, values, hno, hPo, hRo, hP, hR, hV, heq⟩
  · rw [heq]
  · rw [heq]
    cases p with
    | nil => exact absurd List.nil_prefix (h 0).2
    | cons s p2 =>
      cases s with
      | idx i =>
        obtain ⟨fs, rfl⟩ := (isObj_iff node).mp hno
        rfl
      | key k =>
        by_cases hk : k = "parameters"
        · subst hk
          rw [getPath_key_some p2 (jsGet_setKey_self node hno _ _),
            getPath_key_some p2 hP]
          refine frame_rules P R values _ hR hV p2
            (fun j => ⟨fun hx => (h j).1 ?_, fun hx => (h j).2 ?_⟩)
          · exact (cons_prefix_cons_iff _ _ _ _).mpr ⟨rfl, hx⟩
          · exact (cons_prefix_cons_iff _ _ _ _).mpr ⟨rfl, hx⟩
        · rw [getPath_key, getPath_key, jsGet_setKey_other _ _ _ _ hk]

/-! ### The effect site: the options object of each rule -/

lemma fixRule_eq (rule : Json) (cs : List (String × Json)) (tv : Rat)
    (hc : Json.jsGet rule "conditions" = some (Json.obj cs)) :
    fixRule tv rule
      = Json.setKey rule "conditions" (fixConditions tv (Json.obj cs)) := by
  have hro : rule.isObj = true := jsGet_isObj hc
  unfold fixRule
  split
  next h => exact absurd h (by simp [isObj_truthy hro, isObj_typeofObject hro])
  next =>
    split
    next c hc2 =>
      rw [hc] at hc2
      injection hc2 with he
      subst he
      split
      next hct => rfl
      next hct =>
        exact absurd (by simp [Json.truthy, Json.typeofObject]) hct
    next hc2 =>
      rw [hc2] at hc
      exact Option.noConfusion hc

lemma fixNode_eq_rebuild (node P R : Json) (values : List Json)
    (hm : switchV3Matched node = true)
    (hP : Json.jsGet node "parameters" = some P)
    (hR : Json.jsGet P "rules" = some R)
    (hV : Json.jsGet R "values" = some (Json.arr values)) :
    fixNode node = Json.setKey node "parameters" (Json.setKey P "rules"
      (Json.setKey R "values"
        (Json.arr (values.map (fixRule (typeVersionOf node)))))) := by
  have hno : node.isObj = true := jsGet_isObj hP
  have hPo : P.isObj = true := jsGet_isObj hR
  have hRo : R.isObj = true := jsGet_isObj hV
  unfold fixNode
  split
  next h => exact absurd h (by simp [isObj_truthy hno, isObj_typeofObject hno])
  next =>
    split
    next h => exact absurd h (by simp [hm])
    next =>
      split
      next hP2 =>
        rw [hP2] at hP
        exact Option.noConfusion hP
      next params hP2 =>
        rw [hP] at hP2
        injection hP2 with he
        subst he
        split
        next h => exact absurd h (by simp [isObj_truthy hPo])
        next =>
          split
          next hR2 =>
            rw [hR2] at hR
            exact Option.noConfusion hR
          next rules hR2 =>
            rw [hR] at hR2
            injection hR2 with he
            subst he
            split
            next h =>
              exact absurd h (by simp [isObj_truthy hRo, isObj_typeofObject hRo])
            next =>
              split
              next vs2 hV2 =>
                rw [hV] at hV2
                injection hV2 with he
                injection he with he2
                subst he2
                rfl
              next hV2 =>
                exact absurd hV (hV2 values)

/-- On the effect site itself, the fix replaces rule `j`'s `conditions.options`
value by `extendOpts` of the old one. -/
lemma fixNode_options (node : Json) (j : Nat) (values : List Json)
    (rule : Json) (cs : List (String × Json))
    (hm : switchV3Matched node = true)
    (hv : getPath node [.key "parameters", .key "rules", .key "values"]
      = some (Json.arr values))
    (hr : values[j]? = some rule)
    (hc : Json.jsGet rule "conditions" = some (Json.obj cs)) :
    getPath (fixNode node) (bp j)
      = some (extendOpts (typeVersionOf node)
          (Json.jsGet (Json.obj cs) "options")) := by
  cases hP : Json.jsGet node "parameters" with
  | none => rw [getPath_key_none _ hP] at hv; exact Option.noConfusion hv
  | some P =>
    rw [getPath_key_some _ hP] at hv
    cases hR : Json.jsGet P "rules" with
    | none => rw [getPath_key_none _ hR] at hv; exact Option.noConfusion hv
    | some R =>
      rw [getPath_key_some _ hR] at hv
      cases hV : Json.jsGet R "values" with
      | none => rw [getPath_key_none _ hV] at hv; exact Option.noConfusion hv
      | some V =>
        rw [getPath_key_some _ hV] at hv
        have hVv : V = Json.arr values := by
          rw [getPath] at hv
          exact Option.some.inj hv
        subst hVv
        rw [fixNode_eq_rebuild node P R values hm hP hR hV]
        have hno : node.isObj = true := jsGet_isObj hP
        have hPo : P.isObj = true := jsGet_isObj hR
        have hRo : R.isObj = true := jsGet_isObj hV
        show getPath _ (.key "parameters" :: .key "rules" :: .key "values" ::
          .idx j :: .key "conditions" :: [PathStep.key "options"]) = _
        rw [getPath_key_some _ (jsGet_setKey_self node hno _ _),
          getPath_key_some _ (jsGet_setKey_self P hPo _ _),
          getPath_key_some _ (jsGet_setKey_self R hRo _ _),
          getPath_idx_arr, List.getElem?_map, hr]
        rw [show Option.map (fixRule (typeVersionOf node)) (some rule)
          = some (fixRule (typeVersionOf node) rule) from rfl]
        rw [fixRule_eq rule cs _ hc]
        show getPath (Json.setKey rule "conditions"
            (fixConditions (typeVersionOf node) (Json.obj cs)))
          [PathStep.key "conditions", PathStep.key "options"] = _
        rw [getPath_key_some _ (jsGet_setKey_self rule (jsGet_isObj hc) _ _)]
        rw [fixConditions]
        rw [getPath_key_some _
          (jsGet_setKey_self (Json.obj cs) (by simp [Json.isObj]) _ _)]
        rfl

end Fixer


/-- C10: the `fixSwitchV3RuleConditionsOptions` fix leaves every node whose
type is not exactly `n8n-nodes-base.switch` with numeric `typeVersion >= 3`
unchanged; on matched nodes every path unrelated to some rule's
`conditions.options` site reads the same value before and after the fix,
while each rule's `conditions.options` value becomes its `extendOpts` image,
which preserves every key already present, changes no key outside
`caseSensitive`/`leftValue`/`typeValidation`/`version`, and fills exactly the
missing ones of those with `true`/`''`/`'strict'`, plus `version = 2` exactly
when `typeVersion >= 3.2`.  The shape hypothesis confines the statement to
nodes where no rule's `conditions` or `conditions.options` is an array (there
the JavaScript original attaches properties to an array object, which the
`Json` model cannot express). -/
theorem C10_switch_fix_frame_effect (node : Json)
    (_hshape : Fixer.nodeRulesShapeOk node = true) :
    (Fixer.switchV3Matched node = false → Fixer.fixNode node = node)
    ∧ (∀ p : List Fixer.PathStep,
        (∀ j : Nat, ¬ (Fixer.bp j <+: p) ∧ ¬ (p <+: Fixer.bp j)) →
        Fixer.getPath (Fixer.fixNode node) p = Fixer.getPath node p)
    ∧ (∀ (j : Nat) (values : List Json) (rule : Json)
        (cs : List (String × Json)),
        Fixer.switchV3Matched node = true →
        Fixer.getPath node [.key "parameters", .key "rules", .key "values"]
          = some (Json.arr values) →
        values[j]? = some rule →
        Json.jsGet rule "conditions" = some (Json.obj cs) →
        Fixer.getPath (Fixer.fixNode node) (Fixer.bp j)
          = some (Fixer.extendOpts (Fixer.typeVersionOf node)
              (Json.jsGet (Json.obj cs) "options")))
    ∧ (∀ (tv : Rat) (opts : Option Json) (k : String),
        Fixer.optsHasKey opts k = true →
        Json.jsGet (Fixer.extendOpts tv opts) k
          = opts.bind (fun o => Json.jsGet o k))
    ∧ (∀ (tv : Rat) (opts : Option Json) (k : String),
        k ≠ "caseSensitive" → k ≠ "leftValue" → k ≠ "typeValidation" →
        k ≠ "version" →
        Json.jsGet (Fixer.extendOpts tv opts) k
          = opts.bind (fun o => Json.jsGet o k))
    ∧ (∀ (tv : Rat) (opts : Option Json), Fixer.optsShapeOk opts = true →
        (Fixer.optsHasKey opts "caseSensitive" = false →
          Json.jsGet (Fixer.extendOpts tv opts) "caseSensitive"
            = some (Json.bool true))
        ∧ (Fixer.optsHasKey opts "leftValue" = false →
          Json.jsGet (Fixer.extendOpts tv opts) "leftValue"
            = some (Json.str ""))
        ∧ (Fixer.optsHasKey opts "typeValidation" = false →
          Json.jsGet (Fixer.extendOpts tv opts) "typeValidation"
            = some (Json.str "strict"))
        ∧ (Fixer.optsHasKey opts "version" = false →
          Json.jsGet (Fixer.extendOpts tv opts) "version"
            = if Fixer.threePointTwo ≤ tv then some (Json.num 2)
              else none)) := by
  refine ⟨?_, ?_, ?_, ?_, ?_, ?_⟩
  · intro hm
    simp [Fixer.fixNode, hm]
  · exact fun p h => Fixer.fixNode_frame node p h
  · exact fun j values rule cs hm hv hr hc =>
      Fixer.fixNode_options node j values rule cs hm hv hr hc
  · exact fun tv opts k h => Fixer.extendOpts_present tv opts k h
  · exact fun tv opts k h1 h2 h3 h4 =>
      Fixer.extendOpts_other tv opts k h1 h2 h3 h4
  · exact fun tv opts hs => ⟨Fixer.extendOpts_missing_cs tv opts hs,
      Fixer.extendOpts_missing_lv tv opts hs,
      Fixer.extendOpts_missing_tval tv opts hs,
      Fixer.extendOpts_missing_version tv opts hs⟩

/-- A concrete Switch 3.2 node with one rule lacking `conditions.options`. -/
def switchWitnessNode : Json := Json.obj [
  ("name", Json.str "Switch"),
  ("type", Json.str "n8n-nodes-base.switch"),
  ("typeVersion", Json.num Fixer.threePointTwo),
  ("parameters", Json.obj [
    ("rules", Json.obj [
      ("values", Json.arr [
        Json.obj [("conditions", Json.obj [("combinator", Json.str "and")])]])])])]

/-- On the concrete Switch 3.2 node, the fix fills in the full default
`options` object of rule 0 and leaves the `name` field untouched. -/
theorem C10_switch_fix_frame_effect_witness :
    Fixer.nodeRulesShapeOk switchWitnessNode = true
    ∧ Fixer.getPath (Fixer.fixNode switchWitnessNode) (Fixer.bp 0)
      = some (Json.obj [("caseSensitive", Json.bool true),
          ("leftValue", Json.str ""), ("typeValidation", Json.str "strict"),
          ("version", Json.num 2)])
    ∧ Fixer.getPath (Fixer.fixNode switchWitnessNode) [.key "name"]
      = Fixer.getPath switchWitnessNode [.key "name"] := by
  have h := C10_switch_fix_frame_effect switchWitnessNode (by decide)
  refine ⟨by decide, ?_, ?_⟩
  · have h3 := h.2.2.1 0
      [Json.obj [("conditions", Json.obj [("combinator", Json.str "and")])]]
      (Json.obj [("conditions", Json.obj [("combinator", Json.str "and")])])
      [("combinator", Json.str "and")]
      (by decide) (by decide) (by decide) (by decide)
    rw [h3]
    decide
  · refine h.2.1 [.key "name"] ?_
    intro j
    constructor
    · intro hc
      exact absurd hc.length_le (by simp [Fixer.bp])
    · intro hc
      exact absurd ((Fixer.cons_prefix_cons_iff _ _ _ _).mp hc).1 (by decide)
